import Mathlib

/-!
Verification of the HydroOpt optimization-telemetry core
(`HydroOpt/visualizador_convergencia.py` — class `ConvergenciaTracker` — and
`HydroOpt/analisador_estatistico.py` — class `AnalisadorEstatistico`) against its
natural-language specification.

Shallow-embedding conventions:
* Python `float` values produced by the recorder's public interface are modelled
  as rationals (`ℚ`); `None` / `np.nan` cells in the per-evaluation histories are
  modelled as `Option ℚ` (`none` = missing), exactly as the source distinguishes
  `None` arguments (stored as `np.nan`) from numeric ones.
* Values that the analyzer can set to the IEEE sentinels `nan`/`inf` are modelled
  by the dedicated type `PFloat` below.
* `float('inf')` initial values of running minima (`melhor_fitness`,
  `melhor_custo_real`) are modelled as `none : Option ℚ`, with the comparisons
  `x < inf` / `x ≤ inf` holding for every finite `x`, which is the only way the
  source ever consults them.
* Python attributes that a `ConvergenciaTracker` object may simply not define
  (`epocas`, `pop_size` — they are injected by the optimizer collaborator, never
  by the class itself) are modelled as `Option`-typed fields where `none` means
  "attribute absent", and reading an absent attribute is an `AttributeError`.
* `np.std` is irrational in general; the analyzer's standard-deviation fields are
  modelled by their squares (the variance), which is rational.  A field modelled
  this way is NaN exactly when the source's standard deviation is NaN, since
  `sqrt` of a nonnegative finite value is finite and `sqrt(nan) = nan`.
-/

/-- Python floating-point scalar as observed through the analyzer's outputs:
either a finite value (modelled exactly as a rational), `nan`, `inf` or `-inf`. -/
inductive PFloat where
  | fin (q : ℚ)
  | nan
  | inf
  | ninf
deriving DecidableEq, Repr

/-- `true` on the values for which Python's `json.dump` (with its default
`allow_nan=True`) emits the literal tokens `NaN`, `Infinity` or `-Infinity`. -/
def PFloat.isNonFinite : PFloat → Bool
  | .fin _ => false
  | _ => true

/-- `x < m` where `m : Option ℚ` models a running minimum initialised to
`float('inf')` (`none`). -/
def optLt (x : ℚ) (m : Option ℚ) : Bool :=
  match m with
  | none => true
  | some b => decide (x < b)

/-- `x ≤ m` where `m : Option ℚ` models a value initialised to `float('inf')`. -/
def optLe (x : ℚ) (m : Option ℚ) : Bool :=
  match m with
  | none => true
  | some b => decide (x ≤ b)

/-- Python's `abs` on a (finite) float, unfolded so concrete values evaluate. -/
def ratAbs (q : ℚ) : ℚ :=
  if q < 0 then -q else q

/-- One entry of the per-epoch list the optimizer collaborator injects as
`tracker.epocas`: a dict with keys `epoca`, `melhor`, `media`, `pior`,
`desvio`, `todos` (see `AnalisadorEstatistico._analisar_epocas`). -/
structure Epoca where
  epoca : ℕ
  melhor : ℚ
  media : ℚ
  pior : ℚ
  desvio : ℚ
  todos : List ℚ
deriving DecidableEq, Repr

/-- State of `ConvergenciaTracker` (visualizador_convergencia.py).  The
`epocas` / `pop_size` fields model the *optional presence* of attributes that
the class itself never defines; `ConvergenciaTracker.new` (the `__init__`)
leaves them `none` (= absent). -/
structure ConvergenciaTracker where
  salvar_solucoes : Bool
  historico_bruto : List ℚ
  historico : List ℚ
  historico_custo_real : List (Option ℚ)
  historico_pressao_min : List (Option ℚ)
  historico_viavel : List Bool
  historico_solucoes : List (Option (List ℚ))
  melhor_fitness : Option ℚ
  melhor_custo_real : Option ℚ
  melhor_solucao : Option (List ℚ)
  iteracao_atual : ℕ
  epocas : Option (List Epoca)
  pop_size : Option ℕ
deriving DecidableEq, Repr

/-- `ConvergenciaTracker.__init__(salvar_solucoes)`. -/
def ConvergenciaTracker.new (salvar : Bool) : ConvergenciaTracker where
  salvar_solucoes := salvar
  historico_bruto := []
  historico := []
  historico_custo_real := []
  historico_pressao_min := []
  historico_viavel := []
  historico_solucoes := []
  melhor_fitness := none
  melhor_custo_real := none
  melhor_solucao := none
  iteracao_atual := 0
  epocas := none
  pop_size := none

/-- `if fitness < self.melhor_fitness: self.melhor_fitness = fitness` — the
updated running best raw fitness (initial value `float('inf')` = `none`). -/
def atualizaMelhorFitness (m : Option ℚ) (fitness : ℚ) : ℚ :=
  match m with
  | none => fitness
  | some b => if fitness < b then fitness else b

/-- `if viavel and custo_real < self.melhor_custo_real: …` — the updated
running best feasible cost (only when a cost was supplied). -/
def atualizaMelhorCusto (m : Option ℚ) (custo_real : Option ℚ) (viavel : Bool) : Option ℚ :=
  match custo_real with
  | some c => if viavel && optLt c m then some c else m
  | none => m

/-- `if viavel and solucao is not None: if custo_real is not None and
custo_real <= self.melhor_custo_real: self.melhor_solucao = solucao` — note
`mcr` is the running best cost *after* this call's update. -/
def atualizaMelhorSolucao (old : Option (List ℚ)) (mcr : Option ℚ)
    (custo_real : Option ℚ) (viavel : Bool) (solucao : Option (List ℚ)) :
    Option (List ℚ) :=
  match solucao, custo_real with
  | some s, some c => if viavel && optLe c mcr then some s else old
  | _, _ => old

/-- `ConvergenciaTracker.adicionar(fitness, custo_real, pressao_min, viavel,
solucao)` — registers one evaluation, updating the best-so-far state exactly in
the source's statement order (the running best cost is updated *before* the
best-feasible-solution test reads it). -/
def ConvergenciaTracker.adicionar (t : ConvergenciaTracker) (fitness : ℚ)
    (custo_real : Option ℚ := none) (pressao_min : Option ℚ := none)
    (viavel : Bool := false) (solucao : Option (List ℚ) := none) :
    ConvergenciaTracker :=
  { t with
    iteracao_atual := t.iteracao_atual + 1
    historico_bruto := t.historico_bruto ++ [fitness]
    melhor_fitness := some (atualizaMelhorFitness t.melhor_fitness fitness)
    historico := t.historico ++ [atualizaMelhorFitness t.melhor_fitness fitness]
    historico_custo_real := t.historico_custo_real ++ [custo_real]
    melhor_custo_real := atualizaMelhorCusto t.melhor_custo_real custo_real viavel
    historico_pressao_min := t.historico_pressao_min ++ [pressao_min]
    historico_viavel := t.historico_viavel ++ [viavel]
    historico_solucoes :=
      if t.salvar_solucoes then t.historico_solucoes ++ [solucao] else t.historico_solucoes
    melhor_solucao := atualizaMelhorSolucao t.melhor_solucao
      (atualizaMelhorCusto t.melhor_custo_real custo_real viavel) custo_real viavel solucao }

/-- `ConvergenciaTracker.limpar()` — resets the recorded state.  Note that it
only reassigns the fields `__init__` created; externally injected attributes
(`epocas`, `pop_size`) are *not* deleted, faithfully to the source. -/
def ConvergenciaTracker.limpar (t : ConvergenciaTracker) : ConvergenciaTracker :=
  { t with
    historico := []
    historico_bruto := []
    historico_custo_real := []
    historico_pressao_min := []
    historico_viavel := []
    historico_solucoes := []
    melhor_fitness := none
    melhor_custo_real := none
    melhor_solucao := none
    iteracao_atual := 0 }

/-- Argument bundle of one `adicionar` call. -/
structure AddArgs where
  fitness : ℚ
  custo_real : Option ℚ := none
  pressao_min : Option ℚ := none
  viavel : Bool := false
  solucao : Option (List ℚ) := none
deriving DecidableEq, Repr

/-- Apply one `adicionar` call given a bundled argument record. -/
def ConvergenciaTracker.adicionarArgs (t : ConvergenciaTracker) (a : AddArgs) :
    ConvergenciaTracker :=
  t.adicionar a.fitness a.custo_real a.pressao_min a.viavel a.solucao

/-- The tracker obtained from a fresh `ConvergenciaTracker(salvar)` by a
sequence of `adicionar` calls. -/
def runTracker (salvar : Bool) (calls : List AddArgs) : ConvergenciaTracker :=
  calls.foldl ConvergenciaTracker.adicionarArgs (ConvergenciaTracker.new salvar)

/-- A call through the public mutating interface of `ConvergenciaTracker`. -/
inductive TrackerOp where
  | add (a : AddArgs)
  | limpar
deriving DecidableEq, Repr

/-- Apply one public mutating call. -/
def ConvergenciaTracker.applyOp (t : ConvergenciaTracker) : TrackerOp → ConvergenciaTracker
  | .add a => t.adicionarArgs a
  | .limpar => t.limpar

/-- The tracker obtained from a fresh `ConvergenciaTracker(salvar)` by any
sequence of public mutating calls (`adicionar` / `limpar`). -/
def runTrackerOps (salvar : Bool) (ops : List TrackerOp) : ConvergenciaTracker :=
  ops.foldl ConvergenciaTracker.applyOp (ConvergenciaTracker.new salvar)

/-- Running minimum of a list, `none` on the empty list (used to state what the
best-so-far series must equal; the fold direction matches the recorder's
left-to-right updates). -/
def listMin : List ℚ → Option ℚ
  | [] => none
  | x :: xs => some (xs.foldl min x)

/-- Generic streaming extremum under the feasibility filter, embedding the
loop shared (by duplication) by `acumular_melhor_custo_real` (`op = min`) and
`acumular_melhor_pressao_min` (`op = max`): the state `cur` models the
`current_best` variable (`none` = `np.nan`), each input pair is
`(series[i], feasible_mask[i])`, and the output at `i` is the value of
`current_best` after examining index `i`. -/
def acumulaExtremo (op : ℚ → ℚ → ℚ) (cur : Option ℚ) :
    List (Option ℚ × Bool) → List (Option ℚ)
  | [] => []
  | (x, v) :: rest =>
    let cur' : Option ℚ :=
      if v then
        match x with
        | some q => some (match cur with | none => q | some b => op b q)
        | none => cur
      else cur
    cur' :: acumulaExtremo op cur' rest

/-- `ConvergenciaTracker.acumular_melhor_custo_real()` — feasible best-so-far
cost sequence (running `min`). -/
def ConvergenciaTracker.acumular_melhor_custo_real (t : ConvergenciaTracker) :
    List (Option ℚ) :=
  acumulaExtremo min none (t.historico_custo_real.zip t.historico_viavel)

/-- `ConvergenciaTracker.acumular_melhor_pressao_min()` — feasible best-so-far
constraint-margin sequence (running `max`). -/
def ConvergenciaTracker.acumular_melhor_pressao_min (t : ConvergenciaTracker) :
    List (Option ℚ) :=
  acumulaExtremo max none (t.historico_pressao_min.zip t.historico_viavel)

/-- The sub-sequence of values that pass the feasibility filter and are
defined: the entries the streaming extremum actually folds over. -/
def qualificados (l : List (Option ℚ × Bool)) : List ℚ :=
  l.filterMap (fun xv => if xv.2 then xv.1 else none)

/-- The extremum of a qualifying prefix: `none` when no qualifying entry has
occurred yet, otherwise the left fold of `op` over the qualifying values. -/
def foldExtremo (op : ℚ → ℚ → ℚ) : List ℚ → Option ℚ
  | [] => none
  | x :: xs => some (xs.foldl op x)

/-- Result dict of `AnalisadorEstatistico._detectar_estagnacao`. -/
structure Estagnacao where
  estagnado : Bool
  epoca_inicio : Option ℕ
  duracao : ℕ
  epocas_sem_melhoria : ℕ
deriving DecidableEq, Repr

/-- The no-improvement test of one transition of `_detectar_estagnacao`:
`melhoria_rel = abs(bsf[i] - bsf[i-1])`, divided by `abs(bsf[i-1])` when
`bsf[i-1] != 0`, compared against the threshold. -/
def noImprovement (threshold prev cur : ℚ) : Bool :=
  let d : ℚ := ratAbs (cur - prev)
  decide ((if prev ≠ 0 then d / ratAbs prev else d) < threshold)

/-- The chronological list of no-improvement flags, one per transition
`i = 1 .. n-1` (entry `k` of this list is transition `k+1`). -/
def flagsDe (threshold : ℚ) (bsf : List ℚ) : List Bool :=
  (bsf.zip bsf.tail).map (fun pc => noImprovement threshold pc.1 pc.2)

/-- Loop state of `_detectar_estagnacao`: current run length (`sem_melhoria`),
recorded best run length (`max_sem_melhoria`), recorded best run start
(`epoca_inicio_estagnacao`) and current run start (`melhor_estag_inicio`). -/
structure EstSt where
  sem : ℕ
  maxSem : ℕ
  inicio : Option ℕ
  melhorInicio : Option ℕ
deriving DecidableEq, Repr

/-- One iteration of the scan at transition index `i` with flag `b`: extend the
current run (recording its start when it is freshly opened), or close it,
replacing the recorded best run only when the just-ended run is *strictly*
longer. -/
def estStep (s : EstSt) (i : ℕ) (b : Bool) : EstSt :=
  if b then
    { sem := s.sem + 1
      maxSem := s.maxSem
      inicio := s.inicio
      melhorInicio := if s.sem = 0 then some i else s.melhorInicio }
  else if s.maxSem < s.sem then
    { sem := 0, maxSem := s.sem, inicio := s.melhorInicio, melhorInicio := s.melhorInicio }
  else
    { s with sem := 0 }

/-- Scan the transition flags in order, numbering them from `i`. -/
def scanFlags (s : EstSt) (i : ℕ) : List Bool → EstSt
  | [] => s
  | b :: rest => scanFlags (estStep s i b) (i + 1) rest

/-- `AnalisadorEstatistico._detectar_estagnacao(bsf_por_epoca, janela,
threshold)`.  After the scan the still-open final run competes once more under
the same strictly-greater rule. -/
def detectarEstagnacao (bsf : List ℚ) (janela : ℕ := 5)
    (threshold : ℚ := 1/1000000) : Estagnacao :=
  if bsf.length < 2 then
    { estagnado := false, epoca_inicio := none, duracao := 0, epocas_sem_melhoria := 0 }
  else
    let s := scanFlags ⟨0, 0, none, none⟩ 1 (flagsDe threshold bsf)
    let m := if s.maxSem < s.sem then s.sem else s.maxSem
    let ini := if s.maxSem < s.sem then s.melhorInicio else s.inicio
    { estagnado := decide (janela ≤ m), epoca_inicio := ini,
      duracao := m, epocas_sem_melhoria := m }

/-- `winAt F s L`: positions `s, s+1, …, s+L-1` of the flag list `F` all exist
and hold `true` — an all-no-improvement window of length `L` starting at `s`. -/
def winAt (F : List Bool) (s L : ℕ) : Bool :=
  (List.range L).all (fun k => F.getD (s + k) false)

/-- `F` has some all-`true` window of length `L`. -/
def hasWin (F : List Bool) (L : ℕ) : Bool :=
  (List.range (F.length + 1)).any (fun s => winAt F s L)

/-- The length of the longest run of consecutive `true` flags: the greatest
`L` (necessarily `≤ F.length`) such that some all-`true` window of length `L`
exists.  This is the order-independent, declarative notion the scan is proved
to compute. -/
def maxWin (F : List Bool) : ℕ :=
  Nat.findGreatest (fun L => hasWin F L = true) F.length

/-- Number of trailing `true` flags (the still-open run at the end of the
scan). -/
def trailTrue (F : List Bool) : ℕ :=
  (F.reverse.takeWhile id).length

/-- `F` with its trailing `true` run removed: the part of the list all of
whose runs have been closed by the scan. -/
def closedPart (F : List Bool) : List Bool :=
  (F.reverse.dropWhile id).reverse

/-- Stable insertion of `x` into an already-stably-sorted list: `x` is placed
at the first position whose element does not come strictly before it, so
elements that tie with `x` (neither strictly precedes the other) keep the
earlier-inserted element in front. -/
def insertStable (lt : α → α → Bool) (x : α) : List α → List α
  | [] => [x]
  | y :: ys => if lt y x then y :: insertStable lt x ys else x :: y :: ys

/-- Stable sort by the strict comes-before test `lt` — the semantics of
Python's `sorted` (Timsort is stable, also with `reverse=True`): an element is
placed before another iff it strictly precedes it or tied while occurring
earlier in the input. -/
def stableSort (lt : α → α → Bool) (l : List α) : List α :=
  l.foldr (insertStable lt) []

/-- Ascending insertion sort of rationals (the order `np.sort` /
`np.percentile` use internally). -/
def sortQ (l : List ℚ) : List ℚ :=
  stableSort (fun a b => decide (a < b)) l

/-- `np.percentile(l, p)` with the default linear interpolation between order
statistics: rank `p/100 * (n-1)`, linearly interpolated between the adjacent
sorted values.  The source only ever calls it on non-empty data (guarded by
`n_total > 0` / one entry per epoch); the `[] => 0` branch is unreachable
there (NumPy would raise on empty input). -/
def npPercentile (l : List ℚ) (p : ℚ) : ℚ :=
  match sortQ l with
  | [] => 0
  | _ :: _ =>
    let s := sortQ l
    let n := s.length
    let rank : ℚ := p * (n - 1) / 100
    let lo : ℕ := (⌊rank⌋).toNat
    let w : ℚ := rank - lo
    let a := s.getD lo 0
    let b := s.getD (lo + 1) a
    a + (b - a) * w

/-- `np.median` = the 50th percentile under the same interpolation rule. -/
def npMedian (l : List ℚ) : ℚ := npPercentile l 50

/-- `np.mean` on non-empty data (the callers guard emptiness). -/
def npMean (l : List ℚ) : ℚ := l.sum / l.length

/-- The *square* of `np.std` (the population variance) — rational, unlike the
standard deviation itself; NaN-ness and zero-ness agree with `np.std`. -/
def npVar (l : List ℚ) : ℚ := (l.map (fun x => (x - npMean l) ^ 2)).sum / l.length

/-- `np.max` on non-empty data (raises on empty; callers guard). -/
def npMax : List ℚ → ℚ
  | [] => 0
  | x :: xs => xs.foldl max x

/-- `np.min` on non-empty data (raises on empty; callers guard). -/
def npMin : List ℚ → ℚ
  | [] => 0
  | x :: xs => xs.foldl min x

/-- One entry of `epocas_detalhes` as built by
`AnalisadorEstatistico._analisar_epocas`. -/
structure Detalhe where
  epoca : ℕ
  melhor : ℚ
  bsf : ℚ
  media : ℚ
  mediana : ℚ
  pior : ℚ
  desvio : ℚ
  q25 : ℚ
  q75 : ℚ
  n_particulas : ℕ
deriving DecidableEq, Repr

/-- Loop body of `_analisar_epocas`: running `bsf = min(bsf, e['melhor'])`
(initially `float('inf')`, modelled as `none`). -/
def analisarEpocasAux (bsf : Option ℚ) : List Epoca → List Detalhe
  | [] => []
  | e :: rest =>
    let bsf' : ℚ := match bsf with | none => e.melhor | some b => min b e.melhor
    { epoca := e.epoca
      melhor := e.melhor
      bsf := bsf'
      media := e.media
      mediana := npMedian e.todos
      pior := e.pior
      desvio := e.desvio
      q25 := npPercentile e.todos 25
      q75 := npPercentile e.todos 75
      n_particulas := e.todos.length } :: analisarEpocasAux (some bsf') rest

/-- `AnalisadorEstatistico._analisar_epocas()`. -/
def analisarEpocas (epocas : List Epoca) : List Detalhe :=
  analisarEpocasAux none epocas

/-- `np.minimum.accumulate`: element `i` of the result is the minimum of the
first `i+1` input elements. -/
def minimumAccumulate : List ℚ → List ℚ
  | [] => []
  | x :: xs => minimumAccumulateAux x xs
where
  minimumAccumulateAux (cur : ℚ) : List ℚ → List ℚ
    | [] => [cur]
    | y :: ys => cur :: minimumAccumulateAux (min cur y) ys

/-- The `taxas_melhoria` array of `AnalisadorEstatistico.calcular` (lines
152–155): entry `0` stays `0`; entry `i ≥ 1` is
`(bsf[i-1] - bsf[i]) / abs(bsf[i-1])` when `bsf[i-1] != 0`, else `0`. -/
def taxasMelhoria (bsf : List ℚ) : List ℚ :=
  match bsf with
  | [] => []
  | _ :: _ =>
    0 :: (bsf.zip bsf.tail).map
      (fun pc => if pc.1 ≠ 0 then (pc.1 - pc.2) / ratAbs pc.1 else 0)

/-- The per-epoch best-so-far series and improvement-rate array computed by
`calcular` from the injected epoch summaries. -/
def taxasDeEpocas (epocas : List Epoca) : List ℚ :=
  taxasMelhoria (minimumAccumulate (epocas.map Epoca.melhor))

/-- Ranking criterion of `exibir_ranking_epocas` (the key name passed to
`e.get(criterio, 0)`). -/
inductive Criterio where
  | melhor
  | media
  | desvio
  | pior
deriving DecidableEq, Repr

/-- The sort key `lambda e: e.get(criterio, 0)`. -/
def chave (c : Criterio) (e : Detalhe) : ℚ :=
  match c with
  | .melhor => e.melhor
  | .media => e.media
  | .desvio => e.desvio
  | .pior => e.pior

/-- The fixed direction policy: `ascendente = criterio in ('melhor', 'media',
'desvio')`. -/
def ascendente (c : Criterio) : Bool :=
  match c with
  | .melhor => true
  | .media => true
  | .desvio => true
  | .pior => false

/-- `sorted(detalhes, key=…, reverse=not ascendente)` of
`exibir_ranking_epocas`: a stable sort, ascending for the smaller-is-better
criteria and descending otherwise. -/
def ordenarDetalhes (c : Criterio) (detalhes : List Detalhe) : List Detalhe :=
  if ascendente c then
    stableSort (fun a b => decide (chave c a < chave c b)) detalhes
  else
    stableSort (fun a b => decide (chave c b < chave c a)) detalhes

/-- The epochs `exibir_ranking_epocas(criterio, top_n)` lists, in order
(`ordenado[:top_n]`). -/
def rankingEpocas (c : Criterio) (top_n : ℕ) (detalhes : List Detalhe) : List Detalhe :=
  (ordenarDetalhes c detalhes).take top_n

/-- `np.argmax` on non-empty data: index of the first occurrence of the
maximum (callers guard emptiness). -/
def npArgmaxAux (best : ℚ) (bestIdx i : ℕ) : List ℚ → ℕ
  | [] => bestIdx
  | y :: ys => if best < y then npArgmaxAux y i (i + 1) ys else npArgmaxAux best bestIdx (i + 1) ys

/-- `np.argmax` (first index attaining the maximum). -/
def npArgmax : List ℚ → ℕ
  | [] => 0
  | x :: xs => npArgmaxAux x 0 1 xs

/-- The Python exceptions the analyzer's constructor can raise. -/
inductive PyError where
  | valueError
  | keyError
  | attributeError
deriving DecidableEq, Repr

/-- The result bundle returned by `Otimizador.otimizar()` as consumed by the
analyzer: `tracker = none` models a dict without the `'tracker'` key. -/
structure Resultado where
  tracker : Option ConvergenciaTracker
  seed_usado : Option ℤ := none
  melhor_custo : Option ℚ := none
  custo_real : Option ℚ := none
deriving DecidableEq, Repr

/-- Cached state of a successfully constructed `AnalisadorEstatistico`: the
raw-history snapshots (`self._fitness_bruto`, …) plus the per-epoch summaries
read from `tracker.epocas`. -/
structure AnalisadorEstatistico where
  fitness_bruto : List ℚ
  fitness_bsf : List ℚ
  viavel : List Bool
  custo_real : List (Option ℚ)
  pressao_min : List (Option ℚ)
  epocas : List Epoca
  seed_usado : Option ℤ
  melhor_custo : Option ℚ
  custo_real_final : Option ℚ
deriving DecidableEq, Repr

/-- `AnalisadorEstatistico.__init__(resultado, tracker)`.  Mirrors the source
control flow: both arguments `None` → `ValueError`; `resultado` without a
`'tracker'` key → `KeyError`; then the history accessors are cached (these
never raise) and `self._epocas = self.tracker.epocas` raises
`AttributeError` when the tracker object does not define that attribute. -/
def analisadorInit (resultado : Option Resultado := none)
    (tracker : Option ConvergenciaTracker := none) :
    Except PyError AnalisadorEstatistico :=
  match resultado, tracker with
  | none, none => .error .valueError
  | _, _ =>
    let trkE : Except PyError ConvergenciaTracker :=
      match tracker with
      | some t => .ok t
      | none =>
        match resultado with
        | some r =>
          match r.tracker with
          | none => .error .keyError
          | some t => .ok t
        | none => .error .valueError
    match trkE with
    | .error e => .error e
    | .ok trk =>
      match trk.epocas with
      | none => .error .attributeError
      | some eps =>
        .ok
          { fitness_bruto := trk.historico_bruto
            fitness_bsf := trk.historico
            viavel := trk.historico_viavel
            custo_real := trk.historico_custo_real
            pressao_min := trk.historico_pressao_min
            epocas := eps
            seed_usado := match resultado with | some r => r.seed_usado | none => none
            melhor_custo := match resultado with | some r => r.melhor_custo | none => none
            custo_real_final := match resultado with | some r => r.custo_real | none => none }

/-- The metrics dict built by `AnalisadorEstatistico.calcular`.  Standard
deviations are modelled by their squares (see the header note);
`estagnacao = none` models the `{}` placeholder of the zero-epoch branch.
`viabilidade_por_epoca` and the list-valued plotting helpers are the only
entries not modelled (the former lazily reads the separate `pop_size`
attribute and no claim depends on it). -/
structure Metricas where
  total_avaliacoes : ℕ
  total_epocas : ℕ
  avaliacoes_viaveis : ℕ
  percentual_viaveis : ℚ
  melhor_fitness : PFloat
  pior_fitness : PFloat
  fitness_medio_global : PFloat
  fitness_mediano_global : PFloat
  fitness_desvio_global : PFloat
  seed_usado : Option ℤ
  erro_medio_particulas : PFloat
  erro_mediano_particulas : PFloat
  erro_desvio_particulas : PFloat
  erro_maximo_particulas : PFloat
  erro_minimo_particulas : PFloat
  erro_q25 : PFloat
  erro_q50 : PFloat
  erro_q75 : PFloat
  erro_iqr : PFloat
  epocas_detalhes : List Detalhe
  taxa_melhoria_media : PFloat
  taxa_melhoria_max : PFloat
  diversidade_media : PFloat
  diversidade_inicial : PFloat
  diversidade_final : PFloat
  perda_diversidade_pct : PFloat
  estagnacao : Option Estagnacao
  epoca_mais_produtiva : ℕ
  melhoria_na_melhor_epoca : PFloat
  custo_real_melhor : PFloat
  custo_real_medio : PFloat
  custo_real_mediano : PFloat
  custo_real_desvio : PFloat
  pressao_min_minima : PFloat
  pressao_min_media : PFloat
  pressao_min_maxima : PFloat
deriving DecidableEq, Repr


/-- Global-fitness block of `calcular` (source lines 110–119).  `bsfUltimo`
is `self._fitness_bsf[-1]`. -/
def metricasGlobais (nTotal : ℕ) (bsfUltimo : ℚ) (bruto : List ℚ) :
    PFloat × PFloat × PFloat × PFloat × PFloat :=
  ( if 0 < nTotal then .fin bsfUltimo else .nan
  , if 0 < nTotal then .fin (npMax bruto) else .nan
  , if 0 < nTotal then .fin (npMean bruto) else .nan
  , if 0 < nTotal then .fin (npMedian bruto) else .nan
  , if 0 < nTotal then .fin (npVar bruto) else .nan )

/-- Error-relative-to-best block of `calcular` (source lines 122–143):
mean/median/std(²)/max/min and the 25/50/75 percentiles plus IQR of
`erros = fitness_bruto - melhor`, all NaN on an empty run. -/
structure BlocoErro where
  medio : PFloat
  mediano : PFloat
  desvio : PFloat
  maximo : PFloat
  minimo : PFloat
  q25 : PFloat
  q50 : PFloat
  q75 : PFloat
  iqr : PFloat
deriving DecidableEq, Repr

/-- Compute the error block from the `erros` series (empty iff the run is
empty, since `erros` has one entry per evaluation). -/
def blocoErro (nTotal : ℕ) (erros : List ℚ) : BlocoErro :=
  { medio := if 0 < nTotal then .fin (npMean erros) else .nan
    mediano := if 0 < nTotal then .fin (npMedian erros) else .nan
    desvio := if 0 < nTotal then .fin (npVar erros) else .nan
    maximo := if 0 < nTotal then .fin (npMax erros) else .nan
    minimo := if 0 < nTotal then .fin (npMin erros) else .nan
    q25 := if 0 < nTotal then .fin (npPercentile erros 25) else .nan
    q50 := if 0 < nTotal then .fin (npPercentile erros 50) else .nan
    q75 := if 0 < nTotal then .fin (npPercentile erros 75) else .nan
    iqr := if 0 < nTotal then .fin (npPercentile erros 75 - npPercentile erros 25) else .nan }

/-- Per-epoch block of `calcular` (source lines 145–194): improvement rates,
diversity trend, stagnation, most productive epoch. -/
structure BlocoEpocas where
  detalhes : List Detalhe
  taxa_media : PFloat
  taxa_max : PFloat
  div_media : PFloat
  div_inicial : PFloat
  div_final : PFloat
  perda_pct : PFloat
  estagnacao : Option Estagnacao
  mais_produtiva : ℕ
  melhoria_max : PFloat
deriving DecidableEq, Repr

/-- Compute the per-epoch block; `taxas = taxasMelhoria bsfPorEpoca` and
`desvios` is the per-epoch stddev list. -/
def blocoEpocas (nEpocas : ℕ) (epocas : List Epoca) (bsfPorEpoca taxas desvios : List ℚ) :
    BlocoEpocas :=
  { detalhes := if 0 < nEpocas then analisarEpocas epocas else []
    taxa_media :=
      if 0 < nEpocas then
        match taxas.drop 1 with
        | [] => .nan
        | ls => .fin (npMean ls)
      else .nan
    taxa_max := if 0 < nEpocas then .fin (npMax taxas) else .nan
    div_media := if 0 < nEpocas then .fin (npMean desvios) else .nan
    div_inicial := if 0 < nEpocas then .fin (desvios.getD 0 0) else .nan
    div_final := if 0 < nEpocas then .fin (desvios.getD (desvios.length - 1) 0) else .nan
    perda_pct :=
      if 0 < nEpocas then
        if desvios.getD 0 0 ≠ 0 then
          .fin ((desvios.getD 0 0 - desvios.getD (desvios.length - 1) 0) / desvios.getD 0 0 * 100)
        else .fin 0
      else .nan
    estagnacao := if 0 < nEpocas then some (detectarEstagnacao bsfPorEpoca 5 (1/1000000)) else none
    mais_produtiva :=
      if 0 < nEpocas then
        if 1 < taxas.length then npArgmax (taxas.drop 1) + 1 else 0
      else 0
    melhoria_max :=
      if 0 < nEpocas then
        if 1 < taxas.length then .fin (taxas.getD (npArgmax (taxas.drop 1) + 1) 0) else .fin 0
      else .fin 0 }

/-- Feasible-only block of `calcular` (source lines 196–218): cost and
constraint-margin statistics over the feasible-with-value entries. -/
def blocoViaveis (custosViaveis pressoesViaveis : List ℚ) :
    (PFloat × PFloat × PFloat × PFloat) × (PFloat × PFloat × PFloat) :=
  ( ( if 0 < custosViaveis.length then .fin (npMin custosViaveis) else .nan
    , if 0 < custosViaveis.length then .fin (npMean custosViaveis) else .nan
    , if 0 < custosViaveis.length then .fin (npMedian custosViaveis) else .nan
    , if 0 < custosViaveis.length then .fin (npVar custosViaveis) else .nan )
  , ( if 0 < pressoesViaveis.length then .fin (npMin pressoesViaveis) else .nan
    , if 0 < pressoesViaveis.length then .fin (npMean pressoesViaveis) else .nan
    , if 0 < pressoesViaveis.length then .fin (npMax pressoesViaveis) else .nan ) )

/-- `AnalisadorEstatistico.calcular()` (the metric values; memoization has no
observable effect on them).  Assembled from the blocks above, whose `if`
guards mirror the source's `if n_total > 0` / `if n_epocas > 0` /
`if len(...) > 0`; the `getD` defaults are unreachable under those guards for
states produced by the recorder. -/
def calcular (a : AnalisadorEstatistico) : Metricas :=
  let nTotal := a.fitness_bruto.length
  let nViaveis := (a.viavel.filter id).length
  let nEpocas := a.epocas.length
  -- melhor = float(self._fitness_bsf[-1])
  let melhorVal : ℚ := a.fitness_bsf.getD (a.fitness_bsf.length - 1) 0
  -- erros = self._fitness_bruto - melhor
  let erros : List ℚ := a.fitness_bruto.map (fun x => x - melhorVal)
  let g := metricasGlobais nTotal melhorVal a.fitness_bruto
  let er := blocoErro nTotal erros
  let bsfPorEpoca : List ℚ := minimumAccumulate (a.epocas.map Epoca.melhor)
  let ep := blocoEpocas nEpocas a.epocas bsfPorEpoca (taxasMelhoria bsfPorEpoca)
    (a.epocas.map Epoca.desvio)
  let vi := blocoViaveis (qualificados (a.custo_real.zip a.viavel))
    (qualificados (a.pressao_min.zip a.viavel))
  { total_avaliacoes := nTotal
    total_epocas := nEpocas
    avaliacoes_viaveis := nViaveis
    percentual_viaveis := if 0 < nTotal then (nViaveis : ℚ) / nTotal * 100 else 0
    melhor_fitness := g.1
    pior_fitness := g.2.1
    fitness_medio_global := g.2.2.1
    fitness_mediano_global := g.2.2.2.1
    fitness_desvio_global := g.2.2.2.2
    seed_usado := a.seed_usado
    erro_medio_particulas := er.medio
    erro_mediano_particulas := er.mediano
    erro_desvio_particulas := er.desvio
    erro_maximo_particulas := er.maximo
    erro_minimo_particulas := er.minimo
    erro_q25 := er.q25
    erro_q50 := er.q50
    erro_q75 := er.q75
    erro_iqr := er.iqr
    epocas_detalhes := ep.detalhes
    taxa_melhoria_media := ep.taxa_media
    taxa_melhoria_max := ep.taxa_max
    diversidade_media := ep.div_media
    diversidade_inicial := ep.div_inicial
    diversidade_final := ep.div_final
    perda_diversidade_pct := ep.perda_pct
    estagnacao := ep.estagnacao
    epoca_mais_produtiva := ep.mais_produtiva
    melhoria_na_melhor_epoca := ep.melhoria_max
    custo_real_melhor := vi.1.1
    custo_real_medio := vi.1.2.1
    custo_real_mediano := vi.1.2.2.1
    custo_real_desvio := vi.1.2.2.2
    pressao_min_minima := vi.2.1
    pressao_min_media := vi.2.2.1
    pressao_min_maxima := vi.2.2.2 }

mutual
/-- In-memory JSON-serializable Python value as handed to `json.dump`:
`None`, `bool`, `int`, `float` (possibly non-finite), `str`, `list`, `dict`. -/
inductive JVal where
  | jnull
  | jbool (b : Bool)
  | jint (n : ℤ)
  | jnum (x : PFloat)
  | jstr (s : String)
  | jarr (l : JArr)
  | jobj (o : JObj)

/-- A Python list of JSON-serializable values. -/
inductive JArr where
  | nil
  | cons (v : JVal) (rest : JArr)

/-- A Python dict (insertion-ordered key/value pairs). -/
inductive JObj where
  | nil
  | cons (k : String) (v : JVal) (rest : JObj)
end

/-- Turn a Lean list into a `JArr`. -/
def JArr.ofList : List JVal → JArr
  | [] => .nil
  | v :: rest => .cons v (JArr.ofList rest)

/-- Turn a list of key/value pairs into a `JObj`. -/
def JObj.ofList : List (String × JVal) → JObj
  | [] => .nil
  | (k, v) :: rest => .cons k v (JObj.ofList rest)

mutual
/-- The `_converter` helper of `AnalisadorEstatistico.exportar_json`: numpy
scalars become Python scalars (identity in this model, which does not
distinguish them), numpy arrays become lists, and dicts/lists are rebuilt
recursively.  It performs *no* NaN/Inf replacement. -/
def converter : JVal → JVal
  | .jobj o => .jobj (converterObj o)
  | .jarr l => .jarr (converterArr l)
  | v => v

/-- `_converter` mapped over a list. -/
def converterArr : JArr → JArr
  | .nil => .nil
  | .cons v rest => .cons (converter v) (converterArr rest)

/-- `_converter` mapped over a dict's values. -/
def converterObj : JObj → JObj
  | .nil => .nil
  | .cons k v rest => .cons k (converter v) (converterObj rest)
end

mutual
/-- Whether a value handed to `json.dump` contains a non-finite float
anywhere, i.e. whether the default serializer (`allow_nan=True`) would emit a
literal `NaN` / `Infinity` / `-Infinity` token for it. -/
def containsNF : JVal → Bool
  | .jnum x => x.isNonFinite
  | .jarr l => containsNFArr l
  | .jobj o => containsNFObj o
  | _ => false

/-- `containsNF` over a list. -/
def containsNFArr : JArr → Bool
  | .nil => false
  | .cons v rest => containsNF v || containsNFArr rest

/-- `containsNF` over a dict. -/
def containsNFObj : JObj → Bool
  | .nil => false
  | .cons _ v rest => containsNF v || containsNFObj rest
end

/-- A finite rational as a Python float value. -/
def jq (q : ℚ) : JVal := .jnum (.fin q)

/-- An optional integer as `int` or `None` (used for `seed_usado`). -/
def jOptInt : Option ℤ → JVal
  | none => .jnull
  | some n => .jint n

/-- One `epocas_detalhes` entry as the dict `_analisar_epocas` builds. -/
def detalheToJ (d : Detalhe) : JVal :=
  .jobj (JObj.ofList
    [ ("epoca", .jint d.epoca)
    , ("melhor", jq d.melhor)
    , ("bsf", jq d.bsf)
    , ("media", jq d.media)
    , ("mediana", jq d.mediana)
    , ("pior", jq d.pior)
    , ("desvio", jq d.desvio)
    , ("q25", jq d.q25)
    , ("q75", jq d.q75)
    , ("n_particulas", .jint d.n_particulas) ])

/-- The stagnation entry: the computed dict, or the `{}` placeholder of the
zero-epoch branch. -/
def estagnacaoToJ : Option Estagnacao → JVal
  | none => .jobj .nil
  | some e =>
    .jobj (JObj.ofList
      [ ("estagnado", .jbool e.estagnado)
      , ("epoca_inicio", match e.epoca_inicio with | none => .jnull | some i => .jint i)
      , ("duracao", .jint e.duracao)
      , ("epocas_sem_melhoria", .jint e.epocas_sem_melhoria) ])

/-- The metrics dict in the key order `calcular` inserts (the JSON-relevant
fields; the omitted `viabilidade_por_epoca` list holds only finite ints and
rationals and cannot affect non-finiteness). -/
def metricasToJ (m : Metricas) : JVal :=
  .jobj (JObj.ofList
    [ ("total_avaliacoes", .jint m.total_avaliacoes)
    , ("total_epocas", .jint m.total_epocas)
    , ("avaliacoes_viaveis", .jint m.avaliacoes_viaveis)
    , ("percentual_viaveis", jq m.percentual_viaveis)
    , ("melhor_fitness", .jnum m.melhor_fitness)
    , ("pior_fitness", .jnum m.pior_fitness)
    , ("fitness_medio_global", .jnum m.fitness_medio_global)
    , ("fitness_mediano_global", .jnum m.fitness_mediano_global)
    , ("fitness_desvio_global", .jnum m.fitness_desvio_global)
    , ("seed_usado", jOptInt m.seed_usado)
    , ("erro_medio_particulas", .jnum m.erro_medio_particulas)
    , ("erro_mediano_particulas", .jnum m.erro_mediano_particulas)
    , ("erro_desvio_particulas", .jnum m.erro_desvio_particulas)
    , ("erro_maximo_particulas", .jnum m.erro_maximo_particulas)
    , ("erro_minimo_particulas", .jnum m.erro_minimo_particulas)
    , ("erro_q25", .jnum m.erro_q25)
    , ("erro_q50", .jnum m.erro_q50)
    , ("erro_q75", .jnum m.erro_q75)
    , ("erro_iqr", .jnum m.erro_iqr)
    , ("epocas_detalhes", .jarr (JArr.ofList (m.epocas_detalhes.map detalheToJ)))
    , ("taxa_melhoria_media", .jnum m.taxa_melhoria_media)
    , ("taxa_melhoria_max", .jnum m.taxa_melhoria_max)
    , ("diversidade_media", .jnum m.diversidade_media)
    , ("diversidade_inicial", .jnum m.diversidade_inicial)
    , ("diversidade_final", .jnum m.diversidade_final)
    , ("perda_diversidade_pct", .jnum m.perda_diversidade_pct)
    , ("estagnacao", estagnacaoToJ m.estagnacao)
    , ("epoca_mais_produtiva", .jint m.epoca_mais_produtiva)
    , ("melhoria_na_melhor_epoca", .jnum m.melhoria_na_melhor_epoca)
    , ("custo_real_melhor", .jnum m.custo_real_melhor)
    , ("custo_real_medio", .jnum m.custo_real_medio)
    , ("custo_real_mediano", .jnum m.custo_real_mediano)
    , ("custo_real_desvio", .jnum m.custo_real_desvio)
    , ("pressao_min_minima", .jnum m.pressao_min_minima)
    , ("pressao_min_media", .jnum m.pressao_min_media)
    , ("pressao_min_maxima", .jnum m.pressao_min_maxima) ])

/-- `AnalisadorEstatistico.exportar_json`: the value handed to `json.dump` is
`_converter(self.calcular())`. -/
def exportarJsonAnalisador (a : AnalisadorEstatistico) : JVal :=
  converter (metricasToJ (calcular a))

/-- One entry of the `avaliacoes` list of `ConvergenciaTracker.exportar_json`:
`custo_real`/`pressao_min` are written as `None` when NaN (or, for
`pressao_min` and `viavel`, when the index is out of range), everything else
is written as-is. -/
def avaliacaoToJ (t : ConvergenciaTracker) (i : ℕ) : JVal :=
  let base : List (String × JVal) :=
    [ ("id", .jint (i + 1))
    , ("fitness_bruto", jq (t.historico_bruto.getD i 0))
    , ("fitness_melhor", jq (t.historico.getD i 0))
    , ("custo_real", match t.historico_custo_real.getD i none with
        | none => .jnull
        | some q => jq q)
    , ("pressao_min", match t.historico_pressao_min.getD i none with
        | none => .jnull
        | some q => jq q)
    , ("viavel", if i < t.historico_viavel.length then .jbool (t.historico_viavel.getD i false) else .jnull) ]
  let full : List (String × JVal) :=
    if t.salvar_solucoes && decide (i < t.historico_solucoes.length) then
      base ++ [ ("solucao", match t.historico_solucoes.getD i none with
        | none => .jnull
        | some s => .jarr (JArr.ofList (s.map jq))) ]
    else base
  .jobj (JObj.ofList full)

/-- `ConvergenciaTracker.exportar_json`: the value handed to `json.dump`.
Note `melhor_fitness` is written via `float(self.melhor_fitness)` with no
sanitization (`Infinity` when no evaluation was recorded), while
`melhor_custo_real` *is* replaced by `None` when still infinite. -/
def exportarJsonTracker (t : ConvergenciaTracker) : JVal :=
  .jobj (JObj.ofList
    [ ("total_avaliacoes", .jint t.iteracao_atual)
    , ("melhor_fitness", .jnum (match t.melhor_fitness with | none => .inf | some q => .fin q))
    , ("melhor_custo_real", match t.melhor_custo_real with | none => .jnull | some q => jq q)
    , ("avaliacoes", .jarr (JArr.ofList
        ((List.range t.historico_bruto.length).map (avaliacaoToJ t)))) ])

/-- Look up a key in a (insertion-ordered) dict. -/
def JObj.get? : JObj → String → Option JVal
  | .nil, _ => none
  | .cons k v rest, key => if k = key then some v else JObj.get? rest key

/-- Look up a key in a JSON value, `none` when it is not a dict. -/
def JVal.campo : JVal → String → Option JVal
  | .jobj o, k => o.get? k
  | _, _ => none

/-- An analyzer over a recorder with zero evaluations and zero epochs (as
obtained from a fresh tracker whose `epocas` attribute was injected as the
empty list). -/
def analisadorVazio : AnalisadorEstatistico where
  fitness_bruto := []
  fitness_bsf := []
  viavel := []
  custo_real := []
  pressao_min := []
  epocas := []
  seed_usado := none
  melhor_custo := none
  custo_real_final := none

/-- A fresh tracker with an (empty) `epocas` attribute injected by a
collaborator — the only way the direct-recorder construction path succeeds. -/
def trackerComEpocas : ConvergenciaTracker :=
  { ConvergenciaTracker.new false with epocas := some [] }

/-- An epoch summary for the ranking scenario: epoch `n` whose population is
the single value `m`. -/
def epocaRank (n : ℕ) (m : ℚ) : Epoca :=
  { epoca := n, melhor := m, media := m, pior := m, desvio := 0, todos := [m] }

/-- The ranking-scenario epoch list with best values `[30, 10, 20]`. -/
def epocasExemplo : List Epoca :=
  [epocaRank 1 30, epocaRank 2 10, epocaRank 3 20]

/-- An analyzer over a recorder with two epoch summaries (best values 100 and
50) and no raw evaluations — a witness input for the per-epoch improvement
rates. -/
def analisadorDuasEpocas : AnalisadorEstatistico where
  fitness_bruto := []
  fitness_bsf := []
  viavel := []
  custo_real := []
  pressao_min := []
  epocas := [epocaRank 1 100, epocaRank 2 50]
  seed_usado := none
  melhor_custo := none
  custo_real_final := none

/-- `ratAbs` agrees with the mathematical absolute value. -/
theorem ratAbs_eq_abs (q : ℚ) : ratAbs q = |q| := by
  rcases lt_or_le q 0 with h | h
  · rw [ratAbs, if_pos h, abs_of_neg h]
  · rw [ratAbs, if_neg (not_lt.mpr h), abs_of_nonneg h]

/-- **C7** (confirmed).  With zero recorded evaluations, `calcular()` returns
(it is a total function here; every operation on this path is guarded in the
source) with `total_avaliacoes = 0`, and every derived scalar fitness metric
(best, worst, mean, median, standard deviation) and every error metric (mean,
median, stddev, max, min, q25, q50, q75, IQR) is the NaN sentinel, which is
distinguishable from a genuine zero. -/
theorem c7_empty_recorder_metrics :
    (calcular analisadorVazio).total_avaliacoes = 0 ∧
    (calcular analisadorVazio).melhor_fitness = PFloat.nan ∧
    (calcular analisadorVazio).pior_fitness = PFloat.nan ∧
    (calcular analisadorVazio).fitness_medio_global = PFloat.nan ∧
    (calcular analisadorVazio).fitness_mediano_global = PFloat.nan ∧
    (calcular analisadorVazio).fitness_desvio_global = PFloat.nan ∧
    (calcular analisadorVazio).erro_medio_particulas = PFloat.nan ∧
    (calcular analisadorVazio).erro_mediano_particulas = PFloat.nan ∧
    (calcular analisadorVazio).erro_desvio_particulas = PFloat.nan ∧
    (calcular analisadorVazio).erro_maximo_particulas = PFloat.nan ∧
    (calcular analisadorVazio).erro_minimo_particulas = PFloat.nan ∧
    (calcular analisadorVazio).erro_q25 = PFloat.nan ∧
    (calcular analisadorVazio).erro_q50 = PFloat.nan ∧
    (calcular analisadorVazio).erro_q75 = PFloat.nan ∧
    (calcular analisadorVazio).erro_iqr = PFloat.nan ∧
    PFloat.nan ≠ PFloat.fin 0 := by
  refine ⟨rfl, rfl, rfl, rfl, rfl, rfl, rfl, rfl, rfl, rfl, rfl, rfl, rfl, rfl, rfl, ?_⟩
  intro h
  exact PFloat.noConfusion h


/-- Neither `adicionar` nor `limpar` touches the externally injected
attributes. -/
theorem applyOp_epocas (t : ConvergenciaTracker) (op : TrackerOp) :
    (t.applyOp op).epocas = t.epocas ∧ (t.applyOp op).pop_size = t.pop_size := by
  cases op <;>
    simp [ConvergenciaTracker.applyOp, ConvergenciaTracker.adicionarArgs,
      ConvergenciaTracker.adicionar, ConvergenciaTracker.limpar]

/-- Folding public calls preserves the injected attributes. -/
theorem foldOps_epocas (ops : List TrackerOp) :
    ∀ t : ConvergenciaTracker,
      (ops.foldl ConvergenciaTracker.applyOp t).epocas = t.epocas ∧
      (ops.foldl ConvergenciaTracker.applyOp t).pop_size = t.pop_size := by
  induction ops with
  | nil => intro t; exact ⟨rfl, rfl⟩
  | cons op rest ih =>
    intro t
    have h := applyOp_epocas t op
    have h' := ih (t.applyOp op)
    exact ⟨by rw [List.foldl_cons, h'.1, h.1], by rw [List.foldl_cons, h'.2, h.2]⟩

/-- **C10** (confirmed).  A `ConvergenciaTracker` built solely through its own
public interface (constructor, then any sequence of `adicionar`/`limpar`
calls) defines neither an `epocas` nor a `pop_size` attribute, and since
`AnalisadorEstatistico.__init__` unconditionally reads `tracker.epocas`,
constructing the analyzer on such a tracker raises `AttributeError` at
construction: the direct-recorder path only works after a collaborator
injects those attributes. -/
theorem c10_bare_tracker_attribute_err (salvar : Bool) (ops : List TrackerOp) :
    (runTrackerOps salvar ops).epocas = none ∧
    (runTrackerOps salvar ops).pop_size = none ∧
    analisadorInit none (some (runTrackerOps salvar ops)) = .error .attributeError := by
  have h := foldOps_epocas ops (ConvergenciaTracker.new salvar)
  have hn : (runTrackerOps salvar ops).epocas = none := h.1
  have hp : (runTrackerOps salvar ops).pop_size = none := h.2
  exact ⟨hn, hp, by simp [analisadorInit, hn]⟩

/-- **C9** (counterexample).  Supplying a recorder — one of the two valid
input shapes — does *not* guarantee that construction succeeds: a fresh
`ConvergenciaTracker()` makes `AnalisadorEstatistico.__init__` raise
`AttributeError` (reading `tracker.epocas`), refuting "when a valid input
shape is supplied, construction succeeds without raising". -/
theorem c9_counterexample_bare_tracker :
    analisadorInit none (some (ConvergenciaTracker.new false)) = .error .attributeError := rfl

/-- **C9** (corrected).  Constructing with neither a result bundle nor a
recorder raises `ValueError` immediately; constructing with a result bundle
lacking the `'tracker'` key raises `KeyError` immediately (both at
construction, never deferred to `calcular`); and when a valid input shape is
supplied *whose recorder additionally defines the `epocas` attribute* (as the
optimizer collaborator injects it), construction succeeds without raising —
but a bare `ConvergenciaTracker` recorder, though a valid input shape, raises
`AttributeError` at construction. -/
theorem c9_constructor_failure_semantics :
    (analisadorInit none none = .error .valueError) ∧
    (∀ r : Resultado, r.tracker = none → analisadorInit (some r) none = .error .keyError) ∧
    (∀ (r : Resultado) (trk : ConvergenciaTracker) (eps : List Epoca),
        r.tracker = some trk → trk.epocas = some eps →
        analisadorInit (some r) none =
          .ok { fitness_bruto := trk.historico_bruto, fitness_bsf := trk.historico,
                viavel := trk.historico_viavel, custo_real := trk.historico_custo_real,
                pressao_min := trk.historico_pressao_min, epocas := eps,
                seed_usado := r.seed_usado, melhor_custo := r.melhor_custo,
                custo_real_final := r.custo_real }) ∧
    (∀ (trk : ConvergenciaTracker) (eps : List Epoca), trk.epocas = some eps →
        analisadorInit none (some trk) =
          .ok { fitness_bruto := trk.historico_bruto, fitness_bsf := trk.historico,
                viavel := trk.historico_viavel, custo_real := trk.historico_custo_real,
                pressao_min := trk.historico_pressao_min, epocas := eps,
                seed_usado := none, melhor_custo := none, custo_real_final := none }) := by
  refine ⟨rfl, ?_, ?_, ?_⟩
  · intro r hr
    simp [analisadorInit, hr]
  · intro r trk eps hr he
    simp [analisadorInit, hr, he]
  · intro trk eps he
    simp [analisadorInit, he]

/-- Witness for C9: the error cases and a successful construction at concrete
inputs. -/
theorem c9_constructor_failure_semantics_witness :
    analisadorInit (some { tracker := none }) none = .error .keyError ∧
    analisadorInit (some { tracker := some trackerComEpocas }) none =
      .ok { fitness_bruto := [], fitness_bsf := [], viavel := [], custo_real := [],
            pressao_min := [], epocas := [], seed_usado := none, melhor_custo := none,
            custo_real_final := none } ∧
    analisadorInit none (some trackerComEpocas) =
      .ok { fitness_bruto := [], fitness_bsf := [], viavel := [], custo_real := [],
            pressao_min := [], epocas := [], seed_usado := none, melhor_custo := none,
            custo_real_final := none } :=
  ⟨c9_constructor_failure_semantics.2.1 { tracker := none } rfl,
   c9_constructor_failure_semantics.2.2.1 { tracker := some trackerComEpocas }
     trackerComEpocas [] rfl rfl,
   c9_constructor_failure_semantics.2.2.2 trackerComEpocas [] rfl⟩

/-- **C6** (confirmed).  On a record call with `feasible = true`, a solution
provided and `real_cost` defined, the incoming solution replaces the recorded
best feasible solution exactly when `real_cost ≤ running_best_cost` *after*
this call's update of the running best cost; consequently, of two feasible
solutions recorded at the same (running-best) cost, the most recent one is
retained, not the first. -/
theorem c6_best_feasible_solution_tiebreak :
    (∀ (t : ConvergenciaTracker) (f c : ℚ) (p : Option ℚ) (s : List ℚ),
        (t.adicionar f (some c) p true (some s)).melhor_solucao =
          (if optLe c (t.adicionar f (some c) p true (some s)).melhor_custo_real then some s
           else t.melhor_solucao)) ∧
    (∀ (t : ConvergenciaTracker) (f₁ f₂ c : ℚ) (p₁ p₂ : Option ℚ) (s₁ s₂ : List ℚ),
        optLe c t.melhor_custo_real = true →
        ((t.adicionar f₁ (some c) p₁ true (some s₁)).adicionar f₂ (some c) p₂ true
            (some s₂)).melhor_solucao = some s₂) := by
  constructor
  · intro t f c p s
    simp [ConvergenciaTracker.adicionar, atualizaMelhorSolucao]
  · intro t f₁ f₂ c p₁ p₂ s₁ s₂ h
    have hmcr : (t.adicionar f₁ (some c) p₁ true (some s₁)).melhor_custo_real = some c := by
      cases hm : t.melhor_custo_real with
      | none => simp [ConvergenciaTracker.adicionar, atualizaMelhorCusto, hm, optLt]
      | some b =>
        have hcb : c ≤ b := by
          have hb := h
          rw [hm] at hb
          exact of_decide_eq_true hb
        rcases lt_or_le c b with hlt | hge
        · simp [ConvergenciaTracker.adicionar, atualizaMelhorCusto, hm, optLt, hlt]
        · have hceq : c = b := le_antisymm hcb hge
          subst hceq
          simp [ConvergenciaTracker.adicionar, atualizaMelhorCusto, hm, optLt]
    set t₁ := t.adicionar f₁ (some c) p₁ true (some s₁) with ht₁
    have h2 : (t₁.adicionar f₂ (some c) p₂ true (some s₂)).melhor_solucao =
        atualizaMelhorSolucao t₁.melhor_solucao
          (atualizaMelhorCusto t₁.melhor_custo_real (some c) true) (some c) true
          (some s₂) := rfl
    rw [h2, hmcr]
    simp [atualizaMelhorCusto, atualizaMelhorSolucao, optLt, optLe]

/-- Witness for C6: two feasible solutions at the same cost recorded into a
fresh tracker — the second is retained. -/
theorem c6_best_feasible_solution_tiebreak_witness :
    (((ConvergenciaTracker.new false).adicionar 1 (some 5) none true
        (some [1])).adicionar 2 (some 5) none true (some [2])).melhor_solucao = some [2] :=
  c6_best_feasible_solution_tiebreak.2 (ConvergenciaTracker.new false) 1 2 5 none none
    [1] [2] rfl

/-- **C4** (counterexample).  The analyzer's machine-readable JSON export of
an empty run hands `json.dump` a value containing NaN floats, so literal
`NaN` tokens are emitted — refuting "the machine-readable JSON exports
convert every NaN and Inf value to null". -/
theorem c4_counterexample_nan_export :
    containsNF (exportarJsonAnalisador analisadorVazio) = true := rfl

/-- **C4** (corrected).  The analyzer's `exportar_json` helper `_converter`
rebuilds dicts and lists recursively but leaves every scalar unchanged — it
performs no NaN/Inf → null conversion — so any run whose metrics contain NaN
(e.g. every run with zero evaluations) is exported with literal NaN tokens.
The tracker's `exportar_json` does write per-evaluation NaN
`custo_real`/`pressao_min` entries and a still-infinite `melhor_custo_real`
as null, but writes `melhor_fitness` unsanitized (an `Infinity` token when no
evaluation was recorded). -/
theorem c4_export_sanitization :
    (∀ x : PFloat, converter (.jnum x) = .jnum x) ∧
    (∀ a : AnalisadorEstatistico, a.fitness_bruto = [] →
        containsNF (exportarJsonAnalisador a) = true) ∧
    (∀ (t : ConvergenciaTracker) (i : ℕ),
        (avaliacaoToJ t i).campo "custo_real" =
          some (match t.historico_custo_real.getD i none with
            | none => JVal.jnull
            | some q => jq q) ∧
        (avaliacaoToJ t i).campo "pressao_min" =
          some (match t.historico_pressao_min.getD i none with
            | none => JVal.jnull
            | some q => jq q)) ∧
    (∀ t : ConvergenciaTracker,
        (exportarJsonTracker t).campo "melhor_custo_real" =
          some (match t.melhor_custo_real with
            | none => JVal.jnull
            | some q => jq q) ∧
        (exportarJsonTracker t).campo "melhor_fitness" =
          some (.jnum (match t.melhor_fitness with
            | none => PFloat.inf
            | some q => PFloat.fin q))) := by
  refine ⟨fun x => rfl, ?_, ?_, ?_⟩
  · intro a h
    have hm : (calcular a).melhor_fitness = PFloat.nan := by
      simp [calcular, metricasGlobais, h]
    simp [exportarJsonAnalisador, metricasToJ, JObj.ofList, converter, converterObj,
      containsNF, containsNFObj, jq, hm, PFloat.isNonFinite]
  · intro t i
    constructor <;>
      · by_cases hs : (t.salvar_solucoes && decide (i < t.historico_solucoes.length)) = true <;>
          simp [avaliacaoToJ, JVal.campo, JObj.get?, JObj.ofList, hs]
  · intro t
    constructor <;> simp [exportarJsonTracker, JVal.campo, JObj.get?, JObj.ofList]

/-- Witness for C4: the amended statement evaluated on an empty analyzer and
a fresh tracker. -/
theorem c4_export_sanitization_witness :
    containsNF (exportarJsonAnalisador analisadorVazio) = true ∧
    (avaliacaoToJ (ConvergenciaTracker.new false) 0).campo "custo_real" = some JVal.jnull ∧
    (exportarJsonTracker (ConvergenciaTracker.new false)).campo "melhor_fitness" =
      some (.jnum PFloat.inf) :=
  ⟨c4_export_sanitization.2.1 analisadorVazio rfl,
   (c4_export_sanitization.2.2.1 (ConvergenciaTracker.new false) 0).1,
   (c4_export_sanitization.2.2.2 (ConvergenciaTracker.new false)).2⟩

/-- Membership in a stable insertion. -/
theorem mem_insertStable {α : Type} (lt : α → α → Bool) (x a : α) :
    ∀ l : List α, a ∈ insertStable lt x l ↔ a = x ∨ a ∈ l := by
  intro l
  induction l with
  | nil => simp [insertStable]
  | cons y ys ih =>
    by_cases hl : lt y x = true <;> simp [insertStable, hl, ih] <;> tauto

/-- Stable insertion permutes. -/
theorem insertStable_perm {α : Type} (lt : α → α → Bool) (x : α) :
    ∀ l : List α, (insertStable lt x l).Perm (x :: l) := by
  intro l
  induction l with
  | nil => simp [insertStable]
  | cons y ys ih =>
    by_cases hl : lt y x = true
    · simp only [insertStable, hl, if_pos]
      exact (ih.cons y).trans (List.Perm.swap x y ys)
    · have hl' : lt y x = false := by
        cases hv : lt y x with
        | true => exact absurd hv hl
        | false => rfl
      simp [insertStable, hl']

/-- The stable sort is a permutation of its input. -/
theorem stableSort_perm {α : Type} (lt : α → α → Bool) :
    ∀ l : List α, (stableSort lt l).Perm l := by
  intro l
  induction l with
  | nil => exact List.Perm.refl _
  | cons x xs ih =>
    have h1 : stableSort lt (x :: xs) = insertStable lt x (stableSort lt xs) := rfl
    rw [h1]
    exact (insertStable_perm lt x (stableSort lt xs)).trans (List.Perm.cons x ih)

/-- Stable insertion preserves sortedness with respect to the strict
comes-before test (`lt b a = false` between any earlier `a` and later `b`). -/
theorem insertStable_pairwise {α : Type} (lt : α → α → Bool)
    (hasym : ∀ a b, lt a b = true → lt b a = false)
    (hneg : ∀ a b c, lt b a = false → lt c b = false → lt c a = false) (x : α) :
    ∀ l : List α, l.Pairwise (fun a b => lt b a = false) →
      (insertStable lt x l).Pairwise (fun a b => lt b a = false) := by
  intro l
  induction l with
  | nil => intro _; simp [insertStable]
  | cons y ys ih =>
    intro h
    rw [List.pairwise_cons] at h
    obtain ⟨hy, hys⟩ := h
    by_cases hl : lt y x = true
    · simp only [insertStable, hl, if_pos]
      rw [List.pairwise_cons]
      refine ⟨?_, ih hys⟩
      intro z hz
      rcases (mem_insertStable lt x z ys).mp hz with hzx | hzy
      · subst hzx; exact hasym y z hl
      · exact hy z hzy
    · have hl' : lt y x = false := by
        cases hv : lt y x with
        | true => exact absurd hv hl
        | false => rfl
      simp only [insertStable, hl, if_neg, Bool.false_eq_true, not_false_eq_true]
      rw [List.pairwise_cons]
      constructor
      · intro z hz
        rcases List.mem_cons.mp hz with hzy | hzys
        · subst hzy; exact hl'
        · exact hneg x y z hl' (hy z hzys)
      · rw [List.pairwise_cons]
        exact ⟨hy, hys⟩

/-- The stable sort output is sorted: no later element strictly precedes an
earlier one. -/
theorem stableSort_pairwise {α : Type} (lt : α → α → Bool)
    (hasym : ∀ a b, lt a b = true → lt b a = false)
    (hneg : ∀ a b c, lt b a = false → lt c b = false → lt c a = false) :
    ∀ l : List α, (stableSort lt l).Pairwise (fun a b => lt b a = false) := by
  intro l
  induction l with
  | nil => simp [stableSort]
  | cons x xs ih =>
    exact insertStable_pairwise lt hasym hneg x _ ih

/-- Stable insertion of an element that no `p`-element strictly precedes puts
it in front of every retained `p`-element. -/
theorem insertStable_filter_pos {α : Type} (lt : α → α → Bool) (p : α → Bool) (x : α)
    (hx : p x = true) (hlt : ∀ y, p y = true → lt y x = false) :
    ∀ l : List α, (insertStable lt x l).filter p = x :: l.filter p := by
  intro l
  induction l with
  | nil => simp [insertStable, hx]
  | cons y ys ih =>
    by_cases hl : lt y x = true
    · have hpy : p y = false := by
        cases hv : p y with
        | true => rw [hlt y hv] at hl; exact absurd hl (by simp)
        | false => rfl
      simp only [insertStable, hl, if_pos, List.filter_cons, hpy]
      simpa [hpy] using ih
    · simp [insertStable, hl, List.filter_cons, hx]

/-- Stable insertion of a non-`p` element does not change the `p`-filtered
list. -/
theorem insertStable_filter_neg {α : Type} (lt : α → α → Bool) (p : α → Bool) (x : α)
    (hx : p x = false) :
    ∀ l : List α, (insertStable lt x l).filter p = l.filter p := by
  intro l
  induction l with
  | nil => simp [insertStable, hx]
  | cons y ys ih =>
    by_cases hl : lt y x = true <;> simp [insertStable, hl, List.filter_cons, hx, ih]

/-- Stability: elements on which the comes-before test is mutually `false`
(ties) keep their original relative order — the `p`-filtered sublist is
unchanged. -/
theorem stableSort_filter {α : Type} (lt : α → α → Bool) (p : α → Bool)
    (hp : ∀ a b, p a = true → p b = true → lt b a = false) :
    ∀ l : List α, (stableSort lt l).filter p = l.filter p := by
  intro l
  induction l with
  | nil => rfl
  | cons x xs ih =>
    have h1 : stableSort lt (x :: xs) = insertStable lt x (stableSort lt xs) := rfl
    rw [h1]
    by_cases hx : p x = true
    · rw [insertStable_filter_pos lt p x hx (fun y hy => hp x y hx hy), ih,
        List.filter_cons, hx]
      simp
    · have hx' : p x = false := by
        cases hv : p x with
        | true => exact absurd hv hx
        | false => rfl
      rw [insertStable_filter_neg lt p x hx', ih, List.filter_cons, hx']
      simp

/-- **C8** (confirmed).  `exibir_ranking_epocas` sorts ascending exactly for
the criteria `melhor`, `media` and `desvio` and descending for `pior`; the
result is a permutation of the epoch-detail list; epochs whose key values tie
keep their original relative order (original epoch identity preserved,
Python's `sorted` being stable also under `reverse=True`); and on epochs with
best values `[30, 10, 20]`, ranking by best ascending with `top_n = 2` lists
values `[10, 20]` (original epochs 2 and 3). -/
theorem c8_epoch_ranking :
    (ascendente .melhor = true ∧ ascendente .media = true ∧ ascendente .desvio = true ∧
      ascendente .pior = false) ∧
    (∀ (c : Criterio) (l : List Detalhe),
        (ordenarDetalhes c l).Pairwise (fun a b =>
          if ascendente c = true then chave c a ≤ chave c b else chave c b ≤ chave c a)) ∧
    (∀ (c : Criterio) (l : List Detalhe), (ordenarDetalhes c l).Perm l) ∧
    (∀ (c : Criterio) (l : List Detalhe) (v : ℚ),
        (ordenarDetalhes c l).filter (fun e => decide (chave c e = v)) =
          l.filter (fun e => decide (chave c e = v))) ∧
    ((rankingEpocas .melhor 2 (analisarEpocas epocasExemplo)).map Detalhe.melhor = [10, 20] ∧
     (rankingEpocas .melhor 2 (analisarEpocas epocasExemplo)).map Detalhe.epoca = [2, 3]) := by
  refine ⟨⟨rfl, rfl, rfl, rfl⟩, ?_, ?_, ?_, ?_⟩
  · intro c l
    by_cases hc : ascendente c = true
    · have hp := stableSort_pairwise (fun a b => decide (chave c a < chave c b))
        (fun a b h => by
          simp only [decide_eq_true_eq] at h
          simp [not_lt.mpr h.le])
        (fun a b z hba hzb => by
          simp only [decide_eq_false_iff_not, not_lt] at hba hzb ⊢
          linarith) l
      rw [ordenarDetalhes, if_pos hc]
      refine hp.imp ?_
      intro a b h
      simp only [decide_eq_false_iff_not, not_lt] at h
      simp [hc, h]
    · have hp := stableSort_pairwise (fun a b => decide (chave c b < chave c a))
        (fun a b h => by
          simp only [decide_eq_true_eq] at h
          simp [not_lt.mpr h.le])
        (fun a b z hba hzb => by
          simp only [decide_eq_false_iff_not, not_lt] at hba hzb ⊢
          linarith) l
      rw [ordenarDetalhes, if_neg hc]
      refine hp.imp ?_
      intro a b h
      simp only [decide_eq_false_iff_not, not_lt] at h
      simp [hc, h]
  · intro c l
    rw [ordenarDetalhes]
    by_cases hc : ascendente c = true <;> simp [hc, stableSort_perm]
  · intro c l v
    rw [ordenarDetalhes]
    by_cases hc : ascendente c = true
    · rw [if_pos hc]
      exact stableSort_filter _ _
        (fun a b ha hb => by
          simp only [decide_eq_true_eq] at ha hb
          simp [ha, hb]) l
    · rw [if_neg hc]
      exact stableSort_filter _ _
        (fun a b ha hb => by
          simp only [decide_eq_true_eq] at ha hb
          simp [ha, hb]) l
  · constructor <;>
      norm_num [rankingEpocas, ordenarDetalhes, ascendente, stableSort, insertStable,
        chave, analisarEpocas, analisarEpocasAux, epocasExemplo, epocaRank]

/-- Appending one value to a history combines its running minimum with the
new value exactly the way `adicionar` updates `melhor_fitness`. -/
theorem listMin_concat (l : List ℚ) (x : ℚ) :
    listMin (l ++ [x]) = some (atualizaMelhorFitness (listMin l) x) := by
  cases l with
  | nil => rfl
  | cons a as =>
    simp only [listMin, List.cons_append, List.foldl_append, List.foldl,
      atualizaMelhorFitness]
    congr 1
    rcases lt_or_le x (as.foldl min a) with h | h
    · rw [min_eq_right h.le, if_pos h]
    · rw [min_eq_left h, if_neg (not_lt.mpr h)]

/-- One `adicionar` call preserves the best-so-far invariant: aligned
lengths, `melhor_fitness` = minimum of the raw history, and each stored
best-so-far entry = minimum of the raw prefix ending there. -/
theorem adicionar_bsf_step (t : ConvergenciaTracker) (a : AddArgs)
    (h1 : t.historico.length = t.historico_bruto.length)
    (h2 : t.melhor_fitness = listMin t.historico_bruto)
    (h3 : ∀ i, i < t.historico.length →
      t.historico.get? i = listMin (t.historico_bruto.take (i + 1))) :
    (t.adicionarArgs a).historico.length = (t.adicionarArgs a).historico_bruto.length ∧
    (t.adicionarArgs a).melhor_fitness = listMin (t.adicionarArgs a).historico_bruto ∧
    ∀ i, i < (t.adicionarArgs a).historico.length →
      (t.adicionarArgs a).historico.get? i =
        listMin ((t.adicionarArgs a).historico_bruto.take (i + 1)) := by
  refine ⟨?_, ?_, ?_⟩
  · simp [ConvergenciaTracker.adicionarArgs, ConvergenciaTracker.adicionar, h1]
  · show some (atualizaMelhorFitness t.melhor_fitness a.fitness) =
      listMin (t.historico_bruto ++ [a.fitness])
    rw [h2, listMin_concat]
  · intro i hi
    show (t.historico ++ [atualizaMelhorFitness t.melhor_fitness a.fitness]).get? i =
      listMin ((t.historico_bruto ++ [a.fitness]).take (i + 1))
    have hlen : i < t.historico.length + 1 := by
      simpa [ConvergenciaTracker.adicionarArgs, ConvergenciaTracker.adicionar] using hi
    rcases Nat.lt_or_ge i t.historico.length with hl | hg
    · rw [List.get?_append hl,
        List.take_append_of_le_length (by omega : i + 1 ≤ t.historico_bruto.length)]
      exact h3 i hl
    · have hieq : i = t.historico.length := by omega
      subst hieq
      rw [List.get?_concat_length]
      have hb : t.historico.length = t.historico_bruto.length := h1
      rw [hb]
      rw [List.take_all_of_le (by simp : (t.historico_bruto ++ [a.fitness]).length ≤
        t.historico_bruto.length + 1)]
      rw [listMin_concat, h2]

/-- The best-so-far invariant is preserved by any sequence of `adicionar`
calls. -/
theorem foldAdicionar_bsf (calls : List AddArgs) :
    ∀ t : ConvergenciaTracker,
      t.historico.length = t.historico_bruto.length →
      t.melhor_fitness = listMin t.historico_bruto →
      (∀ i, i < t.historico.length →
        t.historico.get? i = listMin (t.historico_bruto.take (i + 1))) →
      ((calls.foldl ConvergenciaTracker.adicionarArgs t).historico.length =
        (calls.foldl ConvergenciaTracker.adicionarArgs t).historico_bruto.length ∧
      (calls.foldl ConvergenciaTracker.adicionarArgs t).melhor_fitness =
        listMin (calls.foldl ConvergenciaTracker.adicionarArgs t).historico_bruto ∧
      ∀ i, i < (calls.foldl ConvergenciaTracker.adicionarArgs t).historico.length →
        (calls.foldl ConvergenciaTracker.adicionarArgs t).historico.get? i =
          listMin ((calls.foldl ConvergenciaTracker.adicionarArgs t).historico_bruto.take
            (i + 1))) := by
  induction calls with
  | nil => intro t h1 h2 h3; exact ⟨h1, h2, h3⟩
  | cons a rest ih =>
    intro t h1 h2 h3
    have hstep := adicionar_bsf_step t a h1 h2 h3
    exact ih (t.adicionarArgs a) hstep.1 hstep.2.1 hstep.2.2

/-- **C3** (confirmed).  After any sequence of `adicionar` calls, the stored
best-so-far series satisfies `bsf[i] = min(raw_fitness[0..i])` at every index,
and is therefore non-increasing (`bsf[i+1] ≤ bsf[i]`); being stated for every
call sequence, this is preserved by every further `adicionar` call. -/
theorem c3_best_so_far_series (salvar : Bool) (calls : List AddArgs) :
    (∀ i, i < (runTracker salvar calls).historico.length →
        (runTracker salvar calls).historico.get? i =
          listMin ((runTracker salvar calls).historico_bruto.take (i + 1))) ∧
    (∀ i, i + 1 < (runTracker salvar calls).historico.length →
        (runTracker salvar calls).historico.getD (i + 1) 0 ≤
          (runTracker salvar calls).historico.getD i 0) := by
  have h : (runTracker salvar calls).historico.length =
      (runTracker salvar calls).historico_bruto.length ∧
      (runTracker salvar calls).melhor_fitness =
        listMin (runTracker salvar calls).historico_bruto ∧
      ∀ i, i < (runTracker salvar calls).historico.length →
        (runTracker salvar calls).historico.get? i =
          listMin ((runTracker salvar calls).historico_bruto.take (i + 1)) :=
    foldAdicionar_bsf calls (ConvergenciaTracker.new salvar) rfl rfl
      (by intro i hi; simp [ConvergenciaTracker.new] at hi)
  refine ⟨h.2.2, ?_⟩
  intro i hi
  set t := runTracker salvar calls with ht
  have hlen : t.historico.length = t.historico_bruto.length := h.1
  have hi1 : i < t.historico.length := by omega
  have ha := h.2.2 i hi1
  have hb := h.2.2 (i + 1) hi
  have hy : ∃ y, t.historico_bruto.get? (i + 1) = some y := by
    have hlt : i + 1 < t.historico_bruto.length := by omega
    exact ⟨t.historico_bruto.get ⟨i + 1, hlt⟩, List.get?_eq_get hlt⟩
  obtain ⟨y, hy⟩ := hy
  have hy2 : t.historico_bruto[i + 1]? = some y := by
    rw [← List.get?_eq_getElem?]
    exact hy
  have htake : t.historico_bruto.take (i + 2) = t.historico_bruto.take (i + 1) ++ [y] := by
    rw [List.take_succ, hy2]
    rfl
  rw [htake, listMin_concat] at hb
  have hx : ∃ x, listMin (t.historico_bruto.take (i + 1)) = some x := by
    cases hc : listMin (t.historico_bruto.take (i + 1)) with
    | none =>
      rw [hc] at ha
      exact absurd hi1 (not_lt.mpr (List.get?_eq_none.mp ha))
    | some x => exact ⟨x, rfl⟩
  obtain ⟨x, hx⟩ := hx
  rw [hx] at ha hb
  have hga : t.historico.getD i 0 = x := by
    rw [List.getD_eq_getElem?_getD, ← List.get?_eq_getElem?, ha]
    rfl
  have hgb : t.historico.getD (i + 1) 0 = atualizaMelhorFitness (some x) y := by
    rw [List.getD_eq_getElem?_getD, ← List.get?_eq_getElem?, hb]
    rfl
  rw [hga, hgb]
  rcases lt_or_le y x with hv | hv
  · simp [atualizaMelhorFitness, hv, le_of_lt hv]
  · simp [atualizaMelhorFitness, not_lt.mpr hv, hv]

/-- Witness for C3 on the run `[5, 3, 4]`. -/
theorem c3_best_so_far_series_witness :
    2 < (runTracker false [⟨5, none, none, false, none⟩, ⟨3, none, none, false, none⟩,
        ⟨4, none, none, false, none⟩]).historico.length ∧
    (runTracker false [⟨5, none, none, false, none⟩, ⟨3, none, none, false, none⟩,
        ⟨4, none, none, false, none⟩]).historico.get? 2 =
      listMin ((runTracker false [⟨5, none, none, false, none⟩, ⟨3, none, none, false, none⟩,
        ⟨4, none, none, false, none⟩]).historico_bruto.take 3) ∧
    (runTracker false [⟨5, none, none, false, none⟩, ⟨3, none, none, false, none⟩,
        ⟨4, none, none, false, none⟩]).historico.getD 2 0 ≤
      (runTracker false [⟨5, none, none, false, none⟩, ⟨3, none, none, false, none⟩,
        ⟨4, none, none, false, none⟩]).historico.getD 1 0 :=
  ⟨by decide,
   (c3_best_so_far_series false _).1 2 (by decide),
   (c3_best_so_far_series false _).2 1 (by decide)⟩

/-- With a defined running extremum `b`, the streaming output at `i` is the
left fold of `op` over the qualifying values of the prefix, seeded at `b`. -/
theorem acumulaExtremo_get?_some (op : ℚ → ℚ → ℚ) :
    ∀ (l : List (Option ℚ × Bool)) (b : ℚ) (i : ℕ), i < l.length →
      (acumulaExtremo op (some b) l).get? i =
        some (some ((qualificados (l.take (i + 1))).foldl op b)) := by
  intro l
  induction l with
  | nil => intro b i hi; simp at hi
  | cons xv rest ih =>
    intro b i hi
    obtain ⟨x, v⟩ := xv
    cases v with
    | false =>
      cases i with
      | zero => simp [acumulaExtremo, qualificados]
      | succ j =>
        have hj : j < rest.length := by simpa using hi
        simpa [acumulaExtremo, qualificados] using ih b j hj
    | true =>
      cases x with
      | none =>
        cases i with
        | zero => simp [acumulaExtremo, qualificados]
        | succ j =>
          have hj : j < rest.length := by simpa using hi
          simpa [acumulaExtremo, qualificados] using ih b j hj
      | some q =>
        cases i with
        | zero => simp [acumulaExtremo, qualificados]
        | succ j =>
          have hj : j < rest.length := by simpa using hi
          simpa [acumulaExtremo, qualificados] using ih (op b q) j hj

/-- From the undefined initial state, the streaming output at `i` is exactly
the extremum of the qualifying (feasible-with-value) prefix ending at `i` —
still `none` while that prefix is empty. -/
theorem acumulaExtremo_get? (op : ℚ → ℚ → ℚ) :
    ∀ (l : List (Option ℚ × Bool)) (i : ℕ), i < l.length →
      (acumulaExtremo op none l).get? i =
        some (foldExtremo op (qualificados (l.take (i + 1)))) := by
  intro l
  induction l with
  | nil => intro i hi; simp at hi
  | cons xv rest ih =>
    intro i hi
    obtain ⟨x, v⟩ := xv
    cases v with
    | false =>
      cases i with
      | zero => simp [acumulaExtremo, qualificados, foldExtremo]
      | succ j =>
        have hj : j < rest.length := by simpa using hi
        simpa [acumulaExtremo, qualificados] using ih j hj
    | true =>
      cases x with
      | none =>
        cases i with
        | zero => simp [acumulaExtremo, qualificados, foldExtremo]
        | succ j =>
          have hj : j < rest.length := by simpa using hi
          simpa [acumulaExtremo, qualificados] using ih j hj
      | some q =>
        cases i with
        | zero => simp [acumulaExtremo, qualificados, foldExtremo]
        | succ j =>
          have hj : j < rest.length := by simpa using hi
          have hs := acumulaExtremo_get?_some op rest q j hj
          rw [List.get?_eq_getElem?] at hs
          simp [acumulaExtremo, qualificados, foldExtremo, hs]

/-- The streaming extremum output has the same length as its input. -/
theorem acumulaExtremo_length (op : ℚ → ℚ → ℚ) :
    ∀ (l : List (Option ℚ × Bool)) (cur : Option ℚ),
      (acumulaExtremo op cur l).length = l.length := by
  intro l
  induction l with
  | nil => intro cur; rfl
  | cons xv rest ih =>
    intro cur
    obtain ⟨x, v⟩ := xv
    simp [acumulaExtremo, ih]

/-- All per-evaluation histories of a recorded tracker stay aligned. -/
theorem runTracker_lengths (salvar : Bool) (calls : List AddArgs) :
    (runTracker salvar calls).historico_custo_real.length =
      (runTracker salvar calls).historico_viavel.length ∧
    (runTracker salvar calls).historico_pressao_min.length =
      (runTracker salvar calls).historico_viavel.length := by
  suffices h : ∀ t : ConvergenciaTracker,
      t.historico_custo_real.length = t.historico_viavel.length →
      t.historico_pressao_min.length = t.historico_viavel.length →
      (calls.foldl ConvergenciaTracker.adicionarArgs t).historico_custo_real.length =
        (calls.foldl ConvergenciaTracker.adicionarArgs t).historico_viavel.length ∧
      (calls.foldl ConvergenciaTracker.adicionarArgs t).historico_pressao_min.length =
        (calls.foldl ConvergenciaTracker.adicionarArgs t).historico_viavel.length by
    exact h (ConvergenciaTracker.new salvar) rfl rfl
  induction calls with
  | nil => intro t h1 h2; exact ⟨h1, h2⟩
  | cons a rest ih =>
    intro t h1 h2
    exact ih (t.adicionarArgs a)
      (by simp [ConvergenciaTracker.adicionarArgs, ConvergenciaTracker.adicionar, h1])
      (by simp [ConvergenciaTracker.adicionarArgs, ConvergenciaTracker.adicionar, h2])

/-- **C2** (confirmed).  For every recorded history, the feasible-best-so-far
cost sequence (extremum `min`) and constraint-margin sequence (extremum `max`)
have the same length as the input, and at every index equal the running
extremum over the feasible-with-value prefix ending there — which is `none`
(null) at every index before the first feasible entry with the value defined,
and is never coerced to `0`. -/
theorem c2_feasible_best_so_far (salvar : Bool) (calls : List AddArgs) :
    ((runTracker salvar calls).acumular_melhor_custo_real.length =
      (runTracker salvar calls).historico_custo_real.length) ∧
    ((runTracker salvar calls).acumular_melhor_pressao_min.length =
      (runTracker salvar calls).historico_pressao_min.length) ∧
    (∀ i, i < (runTracker salvar calls).historico_custo_real.length →
      (runTracker salvar calls).acumular_melhor_custo_real.get? i =
        some (foldExtremo min (qualificados
          (((runTracker salvar calls).historico_custo_real.zip
            (runTracker salvar calls).historico_viavel).take (i + 1))))) ∧
    (∀ i, i < (runTracker salvar calls).historico_pressao_min.length →
      (runTracker salvar calls).acumular_melhor_pressao_min.get? i =
        some (foldExtremo max (qualificados
          (((runTracker salvar calls).historico_pressao_min.zip
            (runTracker salvar calls).historico_viavel).take (i + 1))))) := by
  have hl := runTracker_lengths salvar calls
  have hz1 : ((runTracker salvar calls).historico_custo_real.zip
      (runTracker salvar calls).historico_viavel).length =
      (runTracker salvar calls).historico_custo_real.length := by
    rw [List.length_zip, hl.1, min_self]
  have hz2 : ((runTracker salvar calls).historico_pressao_min.zip
      (runTracker salvar calls).historico_viavel).length =
      (runTracker salvar calls).historico_pressao_min.length := by
    rw [List.length_zip, hl.2, min_self]
  refine ⟨?_, ?_, ?_, ?_⟩
  · rw [ConvergenciaTracker.acumular_melhor_custo_real, acumulaExtremo_length, hz1]
  · rw [ConvergenciaTracker.acumular_melhor_pressao_min, acumulaExtremo_length, hz2]
  · intro i hi
    exact acumulaExtremo_get? min _ i (by omega)
  · intro i hi
    exact acumulaExtremo_get? max _ i (by omega)

/-- Witness for C2 on a run with an infeasible no-cost entry followed by two
feasible ones. -/
theorem c2_feasible_best_so_far_witness :
    (runTracker false [⟨10, none, none, false, none⟩, ⟨8, some 100, some 2, true, none⟩,
        ⟨9, some 90, some 3, true, none⟩]).acumular_melhor_custo_real.get? 0 =
      some (foldExtremo min (qualificados
        (((runTracker false [⟨10, none, none, false, none⟩, ⟨8, some 100, some 2, true, none⟩,
          ⟨9, some 90, some 3, true, none⟩]).historico_custo_real.zip
          (runTracker false [⟨10, none, none, false, none⟩, ⟨8, some 100, some 2, true, none⟩,
          ⟨9, some 90, some 3, true, none⟩]).historico_viavel).take 1))) ∧
    (runTracker false [⟨10, none, none, false, none⟩, ⟨8, some 100, some 2, true, none⟩,
        ⟨9, some 90, some 3, true, none⟩]).acumular_melhor_custo_real = [none, some 100, some 90] ∧
    (runTracker false [⟨10, none, none, false, none⟩, ⟨8, some 100, some 2, true, none⟩,
        ⟨9, some 90, some 3, true, none⟩]).acumular_melhor_pressao_min = [none, some 2, some 3] :=
  ⟨(c2_feasible_best_so_far false _).2.2.1 0 (by decide),
   by norm_num [runTracker, ConvergenciaTracker.adicionarArgs, ConvergenciaTracker.adicionar,
     ConvergenciaTracker.new, ConvergenciaTracker.acumular_melhor_custo_real, acumulaExtremo],
   by norm_num [runTracker, ConvergenciaTracker.adicionarArgs, ConvergenciaTracker.adicionar,
     ConvergenciaTracker.new, ConvergenciaTracker.acumular_melhor_pressao_min, acumulaExtremo]⟩

/-- Pointwise value of the `np.minimum.accumulate` loop: entry `i` is the
fold of `min` over the first `i` elements, seeded at the carried value. -/
theorem minAccAux_get? :
    ∀ (l : List ℚ) (cur : ℚ) (i : ℕ), i < l.length + 1 →
      (minimumAccumulate.minimumAccumulateAux cur l).get? i =
        some ((l.take i).foldl min cur) := by
  intro l
  induction l with
  | nil =>
    intro cur i hi
    cases i with
    | zero => rfl
    | succ j => simp at hi
  | cons y ys ih =>
    intro cur i hi
    cases i with
    | zero => rfl
    | succ j =>
      have hj : j < ys.length + 1 := by simpa using hi
      have := ih (min cur y) j hj
      simpa [minimumAccumulate.minimumAccumulateAux] using this

/-- Length of the accumulate loop output. -/
theorem minAccAux_length :
    ∀ (l : List ℚ) (cur : ℚ),
      (minimumAccumulate.minimumAccumulateAux cur l).length = l.length + 1 := by
  intro l
  induction l with
  | nil => intro cur; rfl
  | cons y ys ih =>
    intro cur
    simp [minimumAccumulate.minimumAccumulateAux, ih]

/-- `np.minimum.accumulate` preserves length. -/
theorem minimumAccumulate_length (l : List ℚ) :
    (minimumAccumulate l).length = l.length := by
  cases l with
  | nil => rfl
  | cons x xs => simp [minimumAccumulate, minAccAux_length]

/-- `np.minimum.accumulate` computes prefix minima. -/
theorem minimumAccumulate_get? (l : List ℚ) (i : ℕ) (h : i < l.length) :
    (minimumAccumulate l).get? i = listMin (l.take (i + 1)) := by
  cases l with
  | nil => simp at h
  | cons x xs =>
    have hx := minAccAux_get? xs x i (by simpa using h)
    rw [minimumAccumulate, hx]
    rfl

/-- The accumulate loop starts with the carried value. -/
theorem minAccAux_cons (l : List ℚ) (cur : ℚ) :
    ∃ t, minimumAccumulate.minimumAccumulateAux cur l = cur :: t := by
  cases l with
  | nil => exact ⟨[], rfl⟩
  | cons y ys => exact ⟨_, rfl⟩

/-- Adjacent outputs of the accumulate loop are non-increasing. -/
theorem minAccAux_pairs :
    ∀ (l : List ℚ) (cur : ℚ),
      ∀ pc ∈ ((minimumAccumulate.minimumAccumulateAux cur l).zip
        (minimumAccumulate.minimumAccumulateAux cur l).tail), pc.2 ≤ pc.1 := by
  intro l
  induction l with
  | nil => intro cur pc hpc; simp [minimumAccumulate.minimumAccumulateAux] at hpc
  | cons y ys ih =>
    intro cur pc hpc
    obtain ⟨t, ht⟩ := minAccAux_cons ys (min cur y)
    rw [minimumAccumulate.minimumAccumulateAux, ht] at hpc
    simp only [List.tail_cons, List.zip_cons_cons, List.mem_cons] at hpc
    rcases hpc with hfst | hrest
    · subst hfst
      exact min_le_left cur y
    · have := ih (min cur y) pc
      rw [ht] at this
      exact this (by simpa using hrest)

/-- A prefix-minimum series is non-increasing between adjacent entries. -/
theorem minimumAccumulate_pairs (l : List ℚ) :
    ∀ pc ∈ ((minimumAccumulate l).zip (minimumAccumulate l).tail), pc.2 ≤ pc.1 := by
  cases l with
  | nil => intro pc hpc; simp [minimumAccumulate] at hpc
  | cons x xs => exact minAccAux_pairs xs x

/-- Every improvement rate of a running-minimum series is nonnegative. -/
theorem taxasMelhoria_nonneg (l : List ℚ) :
    ∀ x ∈ taxasMelhoria (minimumAccumulate l), 0 ≤ x := by
  intro x hx
  cases hm : minimumAccumulate l with
  | nil => rw [hm] at hx; simp [taxasMelhoria] at hx
  | cons b bs =>
    rw [hm] at hx
    rw [taxasMelhoria] at hx
    simp only [List.mem_cons, List.mem_map] at hx
    rcases hx with hx0 | ⟨pc, hpc, hfx⟩
    · subst hx0; exact le_refl 0
    · have hle : pc.2 ≤ pc.1 := by
        have := minimumAccumulate_pairs l pc
        rw [hm] at this
        exact this hpc
      subst hfx
      by_cases hz : pc.1 ≠ 0
      · rw [if_pos hz]
        apply div_nonneg (by linarith)
        rw [ratAbs]
        rcases lt_or_le pc.1 0 with hn | hp
        · rw [if_pos hn]; linarith
        · rw [if_neg (not_lt.mpr hp)]; exact hp
      · rw [if_neg hz]

/-- `np.max` ignores a leading `0` over a nonempty nonnegative tail. -/
theorem npMax_cons_zero (r : List ℚ) (hr : r ≠ []) (hpos : ∀ x ∈ r, 0 ≤ x) :
    npMax (0 :: r) = npMax r := by
  cases r with
  | nil => exact absurd rfl hr
  | cons a rs =>
    have ha : 0 ≤ a := hpos a (List.mem_cons_self a rs)
    show (a :: rs).foldl max 0 = rs.foldl max a
    rw [List.foldl_cons, max_eq_right ha]

/-- Entry `i` of `l.zip l.tail` is the adjacent pair `(l[i], l[i+1])`. -/
theorem zip_tail_get? :
    ∀ (l : List ℚ) (i : ℕ), i + 1 < l.length →
      (l.zip l.tail).get? i = some (l.getD i 0, l.getD (i + 1) 0) := by
  intro l
  induction l with
  | nil => intro i hi; simp at hi
  | cons x xs ih =>
    intro i hi
    cases xs with
    | nil => simp at hi
    | cons y ys =>
      cases i with
      | zero => rfl
      | succ j =>
        have hj : j + 1 < (y :: ys).length := by simpa using hi
        have := ih j hj
        simpa [List.zip_cons_cons] using this

/-- The improvement-rate array has one entry per epoch. -/
theorem taxasMelhoria_length (bsf : List ℚ) :
    (taxasMelhoria bsf).length = bsf.length := by
  cases bsf with
  | nil => rfl
  | cons x xs =>
    simp only [taxasMelhoria, List.length_cons, List.length_map, List.length_zip,
      List.tail_cons]
    omega

/-- `improvement[0] = 0` by convention. -/
theorem taxasMelhoria_get?_zero (bsf : List ℚ) (h : bsf ≠ []) :
    (taxasMelhoria bsf).get? 0 = some 0 := by
  cases bsf with
  | nil => exact absurd rfl h
  | cons x xs => rfl

/-- `improvement[i] = (bsf[i-1] - bsf[i]) / abs(bsf[i-1])` when
`bsf[i-1] != 0`, else `0`. -/
theorem taxasMelhoria_get?_succ (bsf : List ℚ) (i : ℕ) (h : i + 1 < bsf.length) :
    (taxasMelhoria bsf).get? (i + 1) =
      some (if bsf.getD i 0 ≠ 0 then
        (bsf.getD i 0 - bsf.getD (i + 1) 0) / ratAbs (bsf.getD i 0) else 0) := by
  cases bsf with
  | nil => simp at h
  | cons x xs =>
    have hz := zip_tail_get? (x :: xs) i h
    rw [taxasMelhoria]
    rw [List.get?_cons_succ, List.get?_map, hz]
    rfl

/-- **C5** (confirmed).  For every run with at least one epoch,
`improvement[0] = 0` and `improvement[i] = (bsf[i-1] - bsf[i]) / |bsf[i-1]|`
when `bsf[i-1] ≠ 0` (else `0`), where `bsf` is the running minimum of the
per-epoch best values; for runs with at least two epochs, the reported
`taxa_melhoria_media` and `taxa_melhoria_max` both equal the mean resp. max
over indices `1..n-1` excluding index 0 (`np.max` is taken over the whole
array in the source, but entry 0 is `0` and all entries are nonnegative for a
running-minimum series, so the two coincide; at `n = 1` the claim's empty
aggregation ranges denote no value). -/
theorem c5_per_epoch_improvement (a : AnalisadorEstatistico) :
    (0 < a.epocas.length → (taxasDeEpocas a.epocas).get? 0 = some 0) ∧
    (∀ i, i < a.epocas.length →
      (minimumAccumulate (a.epocas.map Epoca.melhor)).get? i =
        listMin ((a.epocas.map Epoca.melhor).take (i + 1))) ∧
    (∀ i, i + 1 < a.epocas.length →
      (taxasDeEpocas a.epocas).get? (i + 1) =
        some (if (minimumAccumulate (a.epocas.map Epoca.melhor)).getD i 0 ≠ 0 then
          ((minimumAccumulate (a.epocas.map Epoca.melhor)).getD i 0 -
            (minimumAccumulate (a.epocas.map Epoca.melhor)).getD (i + 1) 0) /
            |(minimumAccumulate (a.epocas.map Epoca.melhor)).getD i 0|
          else 0)) ∧
    (2 ≤ a.epocas.length →
      (calcular a).taxa_melhoria_media = .fin (npMean ((taxasDeEpocas a.epocas).drop 1)) ∧
      (calcular a).taxa_melhoria_max = .fin (npMax ((taxasDeEpocas a.epocas).drop 1))) := by
  have hacclen : (minimumAccumulate (a.epocas.map Epoca.melhor)).length = a.epocas.length := by
    rw [minimumAccumulate_length, List.length_map]
  have htxlen : (taxasDeEpocas a.epocas).length = a.epocas.length := by
    rw [taxasDeEpocas, taxasMelhoria_length, hacclen]
  refine ⟨?_, ?_, ?_, ?_⟩
  · intro h0
    rw [taxasDeEpocas]
    apply taxasMelhoria_get?_zero
    intro hempty
    rw [← List.length_eq_zero] at hempty
    omega
  · intro i hi
    exact minimumAccumulate_get? _ i (by rw [List.length_map]; exact hi)
  · intro i hi
    rw [taxasDeEpocas, ← ratAbs_eq_abs]
    exact taxasMelhoria_get?_succ _ i (by omega)
  · intro h2
    have hdropne : (taxasDeEpocas a.epocas).drop 1 ≠ [] := by
      intro hempty
      have hle := congrArg List.length hempty
      rw [List.length_drop, htxlen] at hle
      simp at hle
      omega
    have hmedia : (calcular a).taxa_melhoria_media =
        (blocoEpocas a.epocas.length a.epocas
          (minimumAccumulate (a.epocas.map Epoca.melhor)) (taxasDeEpocas a.epocas)
          (a.epocas.map Epoca.desvio)).taxa_media := rfl
    have hmax : (calcular a).taxa_melhoria_max =
        (blocoEpocas a.epocas.length a.epocas
          (minimumAccumulate (a.epocas.map Epoca.melhor)) (taxasDeEpocas a.epocas)
          (a.epocas.map Epoca.desvio)).taxa_max := rfl
    obtain ⟨z, zs, hz⟩ := List.exists_cons_of_ne_nil hdropne
    constructor
    · rw [hmedia, blocoEpocas]
      simp only [if_pos (by omega : 0 < a.epocas.length), hz]
    · rw [hmax, blocoEpocas]
      simp only [if_pos (by omega : 0 < a.epocas.length)]
      congr 1
      -- npMax over the whole array equals npMax over indices 1.. because
      -- improvements are nonnegative for a running-minimum series
      cases hacc : minimumAccumulate (a.epocas.map Epoca.melhor) with
      | nil =>
        have := hacclen
        rw [hacc] at this
        simp at this
        omega
      | cons b bs =>
        have htx : taxasDeEpocas a.epocas = taxasMelhoria (b :: bs) := by
          rw [taxasDeEpocas, hacc]
        rw [htx, taxasMelhoria]
        have hform : taxasMelhoria (b :: bs) =
            0 :: ((b :: bs).zip (b :: bs).tail).map
              (fun pc => if pc.1 ≠ 0 then (pc.1 - pc.2) / ratAbs pc.1 else 0) := rfl
        have hrne : ((b :: bs).zip (b :: bs).tail).map
            (fun pc => if pc.1 ≠ 0 then (pc.1 - pc.2) / ratAbs pc.1 else 0) ≠ [] := by
          intro hempty
          rw [htx, hform] at hdropne
          simp only [List.drop_succ_cons, List.drop_zero] at hdropne
          exact hdropne hempty
        rw [npMax_cons_zero _ hrne]
        · rfl
        · intro x hx
          apply taxasMelhoria_nonneg (a.epocas.map Epoca.melhor)
          rw [hacc, hform]
          exact List.mem_cons_of_mem 0 hx


/-- Witness for C5 on two epochs with best values 100 and 50. -/
theorem c5_per_epoch_improvement_witness :
    (taxasDeEpocas analisadorDuasEpocas.epocas).get? 0 = some 0 ∧
    (calcular analisadorDuasEpocas).taxa_melhoria_media =
      .fin (npMean ((taxasDeEpocas analisadorDuasEpocas.epocas).drop 1)) ∧
    (calcular analisadorDuasEpocas).taxa_melhoria_max =
      .fin (npMax ((taxasDeEpocas analisadorDuasEpocas.epocas).drop 1)) ∧
    taxasDeEpocas analisadorDuasEpocas.epocas = [0, 1/2] :=
  ⟨(c5_per_epoch_improvement analisadorDuasEpocas).1 (by decide),
   ((c5_per_epoch_improvement analisadorDuasEpocas).2.2.2 (by decide)).1,
   ((c5_per_epoch_improvement analisadorDuasEpocas).2.2.2 (by decide)).2,
   by norm_num [analisadorDuasEpocas, taxasDeEpocas, taxasMelhoria, minimumAccumulate,
     minimumAccumulate.minimumAccumulateAux, epocaRank, ratAbs, min_def]⟩

/-- Unfolding a window: every position in it holds `true`. -/
theorem winAt_getD {F : List Bool} {s L : ℕ} (h : winAt F s L = true) :
    ∀ k, k < L → F.getD (s + k) false = true := by
  intro k hk
  rw [winAt, List.all_eq_true] at h
  exact h k (List.mem_range.mpr hk)

/-- Building a window from its positions. -/
theorem winAt_of_getD {F : List Bool} {s L : ℕ}
    (h : ∀ k, k < L → F.getD (s + k) false = true) : winAt F s L = true := by
  rw [winAt, List.all_eq_true]
  intro k hk
  exact h k (List.mem_range.mp hk)

/-- The empty window exists everywhere. -/
theorem winAt_zero (F : List Bool) (s : ℕ) : winAt F s 0 = true := by
  apply winAt_of_getD
  intro k hk
  exact absurd hk (Nat.not_lt_zero k)

/-- A `getD`-read returning a non-default value is in bounds. -/
theorem getD_true_lt_length {F : List Bool} {i : ℕ} (h : F.getD i false = true) :
    i < F.length := by
  by_contra hge
  rw [List.getD_eq_default _ _ (le_of_not_lt hge)] at h
  exact Bool.false_ne_true h

/-- A nonempty window lies inside the list. -/
theorem winAt_bound {F : List Bool} {s L : ℕ} (h : winAt F s L = true) (hL : 0 < L) :
    s + L ≤ F.length := by
  have := getD_true_lt_length (winAt_getD h (L - 1) (by omega))
  omega

/-- A window of length 0 always exists. -/
theorem hasWin_zero (F : List Bool) : hasWin F 0 = true := by
  rw [hasWin, List.any_eq_true]
  exact ⟨0, List.mem_range.mpr (by omega), winAt_zero F 0⟩

/-- A concrete window witnesses `hasWin`. -/
theorem hasWin_of_winAt {F : List Bool} {s L : ℕ} (h : winAt F s L = true) :
    hasWin F L = true := by
  cases Nat.eq_zero_or_pos L with
  | inl h0 => subst h0; exact hasWin_zero F
  | inr hL =>
    rw [hasWin, List.any_eq_true]
    refine ⟨s, List.mem_range.mpr ?_, h⟩
    have := winAt_bound h hL
    omega

/-- Extract a window from `hasWin`. -/
theorem hasWin_elim {F : List Bool} {L : ℕ} (h : hasWin F L = true) :
    ∃ s, winAt F s L = true := by
  rw [hasWin, List.any_eq_true] at h
  obtain ⟨s, _, hs⟩ := h
  exact ⟨s, hs⟩

/-- Window lengths are bounded by the list length. -/
theorem hasWin_le_length {F : List Bool} {L : ℕ} (h : hasWin F L = true) :
    L ≤ F.length := by
  cases Nat.eq_zero_or_pos L with
  | inl h0 => omega
  | inr hL =>
    obtain ⟨s, hs⟩ := hasWin_elim h
    have := winAt_bound hs hL
    omega

/-- The longest run length is attained by some window. -/
theorem hasWin_maxWin (F : List Bool) : hasWin F (maxWin F) = true := by
  rw [maxWin]
  exact @Nat.findGreatest_spec 0 (fun L => hasWin F L = true) _ F.length
    (Nat.zero_le _) (hasWin_zero F)

/-- `maxWin` dominates every attained window length. -/
theorem le_maxWin {F : List Bool} {L : ℕ} (h : hasWin F L = true) : L ≤ maxWin F := by
  rw [maxWin]
  exact @Nat.le_findGreatest L (fun L => hasWin F L = true) _ F.length
    (hasWin_le_length h) h

/-- No runs in the empty flag list. -/
theorem maxWin_nil : maxWin [] = 0 := rfl

/-- Appending a `true` flag extends the trailing run. -/
theorem trailTrue_concat_true (F : List Bool) : trailTrue (F ++ [true]) = trailTrue F + 1 := by
  rw [trailTrue, trailTrue, List.reverse_append]
  simp [List.takeWhile_cons]

/-- Appending a `false` flag closes the trailing run. -/
theorem trailTrue_concat_false (F : List Bool) : trailTrue (F ++ [false]) = 0 := by
  rw [trailTrue, List.reverse_append]
  simp [List.takeWhile_cons]

/-- Appending a `true` flag leaves the closed part unchanged. -/
theorem closedPart_concat_true (F : List Bool) : closedPart (F ++ [true]) = closedPart F := by
  rw [closedPart, closedPart, List.reverse_append]
  simp [List.dropWhile_cons]

/-- After a `false` flag the whole list is closed. -/
theorem closedPart_concat_false (F : List Bool) :
    closedPart (F ++ [false]) = F ++ [false] := by
  rw [closedPart, List.reverse_append]
  simp [List.dropWhile_cons]

/-- Every flag list splits into its closed part followed by the trailing
`true` run. -/
theorem trailTrue_decomp (F : List Bool) :
    F = closedPart F ++ List.replicate (trailTrue F) true := by
  have hrep : F.reverse.takeWhile id = List.replicate (trailTrue F) true := by
    rw [List.eq_replicate_iff]
    refine ⟨rfl, ?_⟩
    intro b hb
    have := List.mem_takeWhile_imp hb
    simpa using this
  conv_lhs => rw [← List.reverse_reverse F, ← List.takeWhile_append_dropWhile id F.reverse]
  rw [List.reverse_append, hrep, List.reverse_replicate, closedPart]

/-- Length bookkeeping of the decomposition. -/
theorem closedPart_length (F : List Bool) :
    (closedPart F).length + trailTrue F = F.length := by
  conv_rhs => rw [trailTrue_decomp F]
  simp

/-- A `true`-replicate suffix bounds the trailing-run count from below. -/
theorem trailTrue_append_replicate (X : List Bool) :
    ∀ k, k ≤ trailTrue (X ++ List.replicate k true) := by
  intro k
  induction k with
  | zero => omega
  | succ j ih =>
    rw [List.replicate_succ', ← List.append_assoc, trailTrue_concat_true]
    omega

/-- The closed part, when nonempty, ends in `false` — the trailing run is
maximal. -/
theorem closedPart_last_false {F : List Bool} (h : closedPart F ≠ []) :
    (closedPart F).getD ((closedPart F).length - 1) false = false := by
  by_contra htrue
  have ht : (closedPart F).getD ((closedPart F).length - 1) false = true := by
    cases hv : (closedPart F).getD ((closedPart F).length - 1) false with
    | true => rfl
    | false => exact absurd hv htrue
  have hpos : 0 < (closedPart F).length := List.length_pos.mpr h
  have hget : (closedPart F).getLast h = true := by
    rw [List.getLast_eq_get]
    rw [List.getD_eq_get _ _ (by omega)] at ht
    exact ht
  have hsplit : closedPart F = (closedPart F).dropLast ++ [true] := by
    conv_lhs => rw [← List.dropLast_append_getLast h]
    rw [hget]
  have hdecomp := trailTrue_decomp F
  rw [hsplit, List.append_assoc] at hdecomp
  have hF2 : F = (closedPart F).dropLast ++ List.replicate (trailTrue F + 1) true := by
    conv_lhs => rw [hdecomp]
    rw [List.replicate_succ]
    simp
  have hge := trailTrue_append_replicate ((closedPart F).dropLast) (trailTrue F + 1)
  rw [← hF2] at hge
  omega

theorem winAt_extend {C : List Bool} (X : List Bool) {s L : ℕ}
    (h : winAt C s L = true) : winAt (C ++ X) s L = true := by
  apply winAt_of_getD
  intro k hk
  have ht := winAt_getD h k hk
  have hlt : s + k < C.length := getD_true_lt_length ht
  rw [List.getD_append _ _ _ _ hlt]
  exact ht

theorem winAt_append_false_elim {F : List Bool} {s L : ℕ}
    (h : winAt (F ++ [false]) s L = true) : winAt F s L = true := by
  apply winAt_of_getD
  intro k hk
  have ht := winAt_getD h k hk
  have hlt : s + k < (F ++ [false]).length := getD_true_lt_length ht
  rcases Nat.lt_or_ge (s + k) F.length with hl | hg
  · rw [List.getD_append _ _ _ _ hl] at ht
    exact ht
  · have heq : s + k = F.length := by
      rw [List.length_append, List.length_singleton] at hlt
      omega
    rw [List.getD_append_right _ _ _ _ hg, heq] at ht
    simp at ht

/-- The trailing run itself is a window starting right after the closed
part. -/
theorem winAt_trailing (F : List Bool) :
    winAt F (closedPart F).length (trailTrue F) = true := by
  have hdecomp := trailTrue_decomp F
  set C := closedPart F with hCdef
  set T := trailTrue F with hTdef
  apply winAt_of_getD
  intro k hk
  rw [hdecomp]
  rw [List.getD_append_right _ _ _ _ (Nat.le_add_right _ _)]
  rw [Nat.add_sub_cancel_left]
  rw [List.getD_eq_get _ _ (by simpa using hk)]
  simp

/-- A window that fits inside the closed part is a window of the closed
part. -/
theorem winAt_in_closed {F : List Bool} {j L : ℕ}
    (hjc : j + L ≤ (closedPart F).length) (h : winAt F j L = true) :
    winAt (closedPart F) j L = true := by
  have hdecomp := trailTrue_decomp F
  set C := closedPart F with hCdef
  set T := trailTrue F with hTdef
  apply winAt_of_getD
  intro k hk
  have ht := winAt_getD h k hk
  rw [hdecomp] at ht
  rwa [List.getD_append _ _ _ _ (by omega)] at ht

/-- No window crosses the `false` flag that ends the closed part. -/
theorem winAt_no_cross {F : List Bool} {j L : ℕ} (hj : j < (closedPart F).length)
    (hcross : (closedPart F).length < j + L) : winAt F j L = false := by
  have hdecomp := trailTrue_decomp F
  set C := closedPart F with hCdef
  set T := trailTrue F with hTdef
  cases hv : winAt F j L with
  | false => rfl
  | true =>
    exfalso
    have hk : C.length - 1 - j < L := by omega
    have ht := winAt_getD hv (C.length - 1 - j) hk
    have heq : j + (C.length - 1 - j) = C.length - 1 := by omega
    rw [heq, hdecomp] at ht
    have hne : C ≠ [] := by
      intro hempty
      rw [hempty] at hj
      simp at hj
    have hfalse : C.getD (C.length - 1) false = false := closedPart_last_false hne
    have hlt : C.length - 1 < C.length := by omega
    rw [List.getD_append _ _ _ _ hlt] at ht
    rw [hfalse] at ht
    exact Bool.false_ne_true ht

/-- When the trailing run beats every closed run, no window of its length
starts inside the closed part. -/
theorem no_window_before_trailing {F : List Bool} {L : ℕ}
    (hL : maxWin (closedPart F) < L) {j : ℕ} (hj : j < (closedPart F).length) :
    winAt F j L = false := by
  cases hv : winAt F j L with
  | false => rfl
  | true =>
    exfalso
    rcases le_or_lt (j + L) (closedPart F).length with hle | hgt
    · have hw := winAt_in_closed hle hv
      have := le_maxWin (hasWin_of_winAt hw)
      omega
    · have hw := winAt_no_cross hj hgt
      rw [hv] at hw
      exact Bool.noConfusion hw

/-- A final `false` flag does not change the longest run. -/
theorem maxWin_append_false (F : List Bool) : maxWin (F ++ [false]) = maxWin F := by
  apply le_antisymm
  · obtain ⟨s, hs⟩ := hasWin_elim (hasWin_maxWin (F ++ [false]))
    exact le_maxWin (hasWin_of_winAt (winAt_append_false_elim hs))
  · obtain ⟨s, hs⟩ := hasWin_elim (hasWin_maxWin F)
    exact le_maxWin (hasWin_of_winAt (winAt_extend [false] hs))

/-- The longest run of a flag list is the longer of the longest closed run
and the trailing run. -/
theorem maxWin_decomp (F : List Bool) :
    maxWin F = max (maxWin (closedPart F)) (trailTrue F) := by
  apply le_antisymm
  · obtain ⟨s, hs⟩ := hasWin_elim (hasWin_maxWin F)
    rcases Nat.eq_zero_or_pos (maxWin F) with h0 | hpos
    · omega
    · have hbound := winAt_bound hs hpos
      rcases le_or_lt (s + maxWin F) (closedPart F).length with hle | hgt
      · have hw := winAt_in_closed hle hs
        have := le_maxWin (hasWin_of_winAt hw)
        omega
      · rcases le_or_lt (closedPart F).length s with hsge | hslt
        · have hc := closedPart_length F
          omega
        · have hw := winAt_no_cross hslt hgt
          rw [hs] at hw
          exact Bool.noConfusion hw
  · apply max_le
    · obtain ⟨s, hs⟩ := hasWin_elim (hasWin_maxWin (closedPart F))
      apply le_maxWin
      apply hasWin_of_winAt
      have hw := winAt_extend (List.replicate (trailTrue F) true) hs
      rwa [← trailTrue_decomp F] at hw
    · apply le_maxWin
      apply hasWin_of_winAt
      exact winAt_trailing F

/-- Processing one more flag is one more `estStep` at the next transition
index. -/
theorem scanFlags_append :
    ∀ (l : List Bool) (s : EstSt) (i : ℕ) (b : Bool),
      scanFlags s i (l ++ [b]) = estStep (scanFlags s i l) (i + l.length) b := by
  intro l
  induction l with
  | nil => intro s i b; rfl
  | cons c r ih =>
    intro s i b
    show scanFlags (estStep s i c) (i + 1) (r ++ [b]) = _
    rw [ih (estStep s i c) (i + 1) b]
    have harith : i + 1 + r.length = i + (c :: r).length := by
      simp
      omega
    rw [harith]
    rfl

/-- Loop invariant of `_detectar_estagnacao`'s scan, by induction on the
processed flags: `sem_melhoria` counts the trailing run (whose start index is
in `melhor_estag_inicio`), `max_sem_melhoria` is the longest *closed* run, and
`epoca_inicio_estagnacao` records the earliest start of a maximal closed run
(transition indices are 1-based). -/
theorem scan_invariant (F : List Bool) :
    (scanFlags ⟨0, 0, none, none⟩ 1 F).sem = trailTrue F ∧
    (0 < trailTrue F → (scanFlags ⟨0, 0, none, none⟩ 1 F).melhorInicio =
      some (F.length - trailTrue F + 1)) ∧
    (scanFlags ⟨0, 0, none, none⟩ 1 F).maxSem = maxWin (closedPart F) ∧
    (maxWin (closedPart F) = 0 → (scanFlags ⟨0, 0, none, none⟩ 1 F).inicio = none) ∧
    (0 < maxWin (closedPart F) → ∃ s₀,
      (scanFlags ⟨0, 0, none, none⟩ 1 F).inicio = some (s₀ + 1) ∧
      winAt (closedPart F) s₀ (maxWin (closedPart F)) = true ∧
      ∀ j, j < s₀ → winAt (closedPart F) j (maxWin (closedPart F)) = false) := by
  induction F using List.reverseRecOn with
  | nil =>
    refine ⟨rfl, ?_, rfl, fun _ => rfl, ?_⟩
    · intro h
      simp [trailTrue] at h
    · intro h
      rw [closedPart] at h
      simp [maxWin_nil] at h
  | append_singleton F b ih =>
    obtain ⟨ihsem, ihmel, ihmax, ihini0, ihini⟩ := ih
    have hclen := closedPart_length F
    rw [scanFlags_append]
    set S := scanFlags ⟨0, 0, none, none⟩ 1 F with hS
    cases b with
    | true =>
      rw [trailTrue_concat_true, closedPart_concat_true]
      have hstep : estStep S (1 + F.length) true =
          { sem := S.sem + 1, maxSem := S.maxSem, inicio := S.inicio,
            melhorInicio := if S.sem = 0 then some (1 + F.length) else S.melhorInicio } := rfl
      rw [hstep]
      refine ⟨?_, ?_, ihmax, ihini0, ihini⟩
      · show S.sem + 1 = trailTrue F + 1
        rw [ihsem]
      · intro _
        show (if S.sem = 0 then some (1 + F.length) else S.melhorInicio) =
          some ((F ++ [true]).length - (trailTrue F + 1) + 1)
        rw [List.length_append, List.length_singleton]
        by_cases hsem0 : S.sem = 0
        · rw [if_pos hsem0]
          rw [ihsem] at hsem0
          rw [hsem0]
          congr 1
          omega
        · rw [if_neg hsem0]
          rw [ihsem] at hsem0
          have hTpos : 0 < trailTrue F := Nat.pos_of_ne_zero hsem0
          rw [ihmel hTpos]
          congr 1
          omega
    | false =>
      rw [trailTrue_concat_false, closedPart_concat_false]
      have hmaxF : maxWin (F ++ [false]) = max (maxWin (closedPart F)) (trailTrue F) := by
        rw [maxWin_append_false, maxWin_decomp]
      by_cases hgt : S.maxSem < S.sem
      · have hstep : estStep S (1 + F.length) false =
            { sem := 0, maxSem := S.sem, inicio := S.melhorInicio,
              melhorInicio := S.melhorInicio } := by
          rw [estStep]
          simp [hgt]
        rw [hstep]
        rw [ihsem, ihmax] at hgt
        have hTpos : 0 < trailTrue F := by omega
        have hmaxT : maxWin (F ++ [false]) = trailTrue F := by
          rw [hmaxF, max_eq_right (le_of_lt hgt)]
        refine ⟨rfl, ?_, ?_, ?_, ?_⟩
        · intro h
          exact absurd h (by omega)
        · show S.sem = maxWin (F ++ [false])
          rw [ihsem, hmaxT]
        · intro h0
          rw [hmaxT] at h0
          exact absurd h0 (by omega)
        · intro _
          refine ⟨F.length - trailTrue F, ?_, ?_, ?_⟩
          · show S.melhorInicio = _
            exact ihmel hTpos
          · rw [hmaxT]
            have hlen2 : (closedPart F).length = F.length - trailTrue F := by omega
            have hw := winAt_extend [false] (winAt_trailing F)
            rwa [hlen2] at hw
          · intro j hj
            rw [hmaxT]
            have hjC : j < (closedPart F).length := by omega
            cases hv : winAt (F ++ [false]) j (trailTrue F) with
            | false => rfl
            | true =>
              have hvF := winAt_append_false_elim hv
              have hn := no_window_before_trailing hgt hjC
              rw [hvF] at hn
              exact Bool.noConfusion hn
      · have hstep : estStep S (1 + F.length) false =
            { sem := 0, maxSem := S.maxSem, inicio := S.inicio,
              melhorInicio := S.melhorInicio } := by
          rw [estStep]
          simp [hgt]
        rw [hstep]
        rw [ihsem, ihmax] at hgt
        have hTle : trailTrue F ≤ maxWin (closedPart F) := by omega
        have hmaxM : maxWin (F ++ [false]) = maxWin (closedPart F) := by
          rw [hmaxF, max_eq_left hTle]
        refine ⟨rfl, ?_, ?_, ?_, ?_⟩
        · intro h
          exact absurd h (by omega)
        · show S.maxSem = maxWin (F ++ [false])
          rw [ihmax, hmaxM]
        · intro h0
          rw [hmaxM] at h0
          exact ihini0 h0
        · intro hpos
          rw [hmaxM] at hpos ⊢
          obtain ⟨s₀, h1, h2, h3⟩ := ihini hpos
          refine ⟨s₀, h1, ?_, ?_⟩
          · have hw := winAt_extend (List.replicate (trailTrue F) true) h2
            rw [← trailTrue_decomp F] at hw
            exact winAt_extend [false] hw
          · intro j hj
            cases hv : winAt (F ++ [false]) j (maxWin (closedPart F)) with
            | false => rfl
            | true =>
              have hvF := winAt_append_false_elim hv
              have hbound := winAt_bound h2 hpos
              have hin : j + maxWin (closedPart F) ≤ (closedPart F).length := by omega
              have hw := winAt_in_closed hin hvF
              rw [h3 j hj] at hw
              exact Bool.noConfusion hw

/-- **C1** (confirmed).  For every best-so-far-per-epoch series, transition
`i` (for `1 ≤ i ≤ n-1`) counts as no-improvement iff
`|bsf[i] - bsf[i-1]| / |bsf[i-1]| < threshold` when `bsf[i-1] ≠ 0` (raw
absolute difference when `bsf[i-1] = 0`); with fewer than 2 epochs the result
is `{stagnado: false, epoca_inicio: none, duracao: 0}`; otherwise the
reported duration is the length of the longest no-improvement run, the
stagnation flag is `duration ≥ janela`, and the reported start epoch is the
start of the *earliest* maximal run (replacement only on strictly longer
runs), `none` when there is no such run; in particular
`[100, 100, 100, 100, 100, 100, 50]` with window 5 and threshold `1e-6`
yields `{stagnado: true, epoca_inicio: 1, duracao: 5}`. -/
theorem c1_stagnation_detection (bsf : List ℚ) (janela : ℕ) (t : ℚ) :
    (∀ i, i + 1 < bsf.length →
      ((flagsDe t bsf).getD i false = true ↔
        (if bsf.getD i 0 ≠ 0 then
          |bsf.getD (i + 1) 0 - bsf.getD i 0| / |bsf.getD i 0|
         else |bsf.getD (i + 1) 0 - bsf.getD i 0|) < t)) ∧
    (bsf.length < 2 → detectarEstagnacao bsf janela t =
      { estagnado := false, epoca_inicio := none, duracao := 0, epocas_sem_melhoria := 0 }) ∧
    (2 ≤ bsf.length →
      (detectarEstagnacao bsf janela t).duracao = maxWin (flagsDe t bsf) ∧
      (detectarEstagnacao bsf janela t).epocas_sem_melhoria = maxWin (flagsDe t bsf) ∧
      ((detectarEstagnacao bsf janela t).estagnado = true ↔
        janela ≤ maxWin (flagsDe t bsf)) ∧
      (maxWin (flagsDe t bsf) = 0 →
        (detectarEstagnacao bsf janela t).epoca_inicio = none) ∧
      (0 < maxWin (flagsDe t bsf) → ∃ s₀,
        (detectarEstagnacao bsf janela t).epoca_inicio = some (s₀ + 1) ∧
        winAt (flagsDe t bsf) s₀ (maxWin (flagsDe t bsf)) = true ∧
        ∀ j, j < s₀ → winAt (flagsDe t bsf) j (maxWin (flagsDe t bsf)) = false)) ∧
    (detectarEstagnacao [100, 100, 100, 100, 100, 100, 50] 5 (1/1000000) =
      { estagnado := true, epoca_inicio := some 1, duracao := 5,
        epocas_sem_melhoria := 5 }) := by
  refine ⟨?_, ?_, ?_, ?_⟩
  · intro i h
    have hz := zip_tail_get? bsf i h
    have hflag : (flagsDe t bsf).getD i false =
        noImprovement t (bsf.getD i 0) (bsf.getD (i + 1) 0) := by
      rw [flagsDe, List.getD_eq_getElem?_getD, List.getElem?_map, ← List.get?_eq_getElem?, hz]
      rfl
    rw [hflag, noImprovement]
    simp only [decide_eq_true_eq, ratAbs_eq_abs]
  · intro h
    rw [detectarEstagnacao, if_pos h]
  · intro h2
    set F := flagsDe t bsf with hF
    set S := scanFlags ⟨0, 0, none, none⟩ 1 F with hSdef
    have hinv := scan_invariant F
    obtain ⟨hsem, hmel, hmax, hini0, hini⟩ := hinv
    have hres : detectarEstagnacao bsf janela t =
        { estagnado := decide (janela ≤ (if S.maxSem < S.sem then S.sem else S.maxSem)),
          epoca_inicio := (if S.maxSem < S.sem then S.melhorInicio else S.inicio),
          duracao := (if S.maxSem < S.sem then S.sem else S.maxSem),
          epocas_sem_melhoria := (if S.maxSem < S.sem then S.sem else S.maxSem) } := by
      rw [detectarEstagnacao, if_neg (by omega)]
    have hclen := closedPart_length F
    have hM : (if S.maxSem < S.sem then S.sem else S.maxSem) = maxWin F := by
      rw [hsem, hmax, maxWin_decomp F]
      rcases lt_or_le (maxWin (closedPart F)) (trailTrue F) with hlt | hle
      · rw [if_pos hlt, max_eq_right (le_of_lt hlt)]
      · rw [if_neg (not_lt.mpr hle), max_eq_left hle]
    refine ⟨?_, ?_, ?_, ?_, ?_⟩
    · rw [hres]
      exact hM
    · rw [hres]
      exact hM
    · rw [hres]
      show decide (janela ≤ _) = true ↔ _
      rw [hM]
      simp
    · intro h0
      rw [hres]
      show (if S.maxSem < S.sem then S.melhorInicio else S.inicio) = none
      rw [maxWin_decomp F] at h0
      have hc0 : maxWin (closedPart F) = 0 := by omega
      have ht0 : trailTrue F = 0 := by omega
      rw [hsem, hmax, hc0, ht0, if_neg (by omega)]
      exact hini0 hc0
    · intro hpos
      rw [hres]
      rcases lt_or_le (maxWin (closedPart F)) (trailTrue F) with hlt | hle
      · have hMr : maxWin F = trailTrue F := by
          rw [maxWin_decomp F, max_eq_right (le_of_lt hlt)]
        have hTpos : 0 < trailTrue F := by omega
        refine ⟨F.length - trailTrue F, ?_, ?_, ?_⟩
        · show (if S.maxSem < S.sem then S.melhorInicio else S.inicio) = _
          rw [hsem, hmax, if_pos hlt]
          exact hmel hTpos
        · rw [hMr]
          have hlen2 : (closedPart F).length = F.length - trailTrue F := by omega
          have hw := winAt_trailing F
          rwa [hlen2] at hw
        · intro j hj
          rw [hMr]
          have hjC : j < (closedPart F).length := by omega
          exact no_window_before_trailing hlt hjC
      · have hMl : maxWin F = maxWin (closedPart F) := by
          rw [maxWin_decomp F, max_eq_left hle]
        rw [hMl] at hpos ⊢
        obtain ⟨s₀, h1, hw2, h3⟩ := hini hpos
        refine ⟨s₀, ?_, ?_, ?_⟩
        · show (if S.maxSem < S.sem then S.melhorInicio else S.inicio) = _
          rw [hsem, hmax, if_neg (not_lt.mpr hle)]
          exact h1
        · have hw := winAt_extend (List.replicate (trailTrue F) true) hw2
          rwa [← trailTrue_decomp F] at hw
        · intro j hj
          cases hv : winAt F j (maxWin (closedPart F)) with
          | false => rfl
          | true =>
            have hbound := winAt_bound hw2 hpos
            have hin : j + maxWin (closedPart F) ≤ (closedPart F).length := by omega
            have hw := winAt_in_closed hin hv
            rw [h3 j hj] at hw
            exact Bool.noConfusion hw
  · norm_num [detectarEstagnacao, flagsDe, noImprovement, scanFlags, estStep, ratAbs]

/-- Witness for C1: the short-series branch and the duration
characterization at the concrete stagnation scenario. -/
theorem c1_stagnation_detection_witness :
    detectarEstagnacao ([100] : List ℚ) 5 (1/1000000) =
      { estagnado := false, epoca_inicio := none, duracao := 0,
        epocas_sem_melhoria := 0 } ∧
    (detectarEstagnacao [100, 100, 100, 100, 100, 100, 50] 5 (1/1000000)).duracao =
      maxWin (flagsDe (1/1000000) [100, 100, 100, 100, 100, 100, 50]) :=
  ⟨(c1_stagnation_detection [100] 5 (1/1000000)).2.1 (by decide),
   ((c1_stagnation_detection [100, 100, 100, 100, 100, 100, 50] 5
      (1/1000000)).2.2.1 (by decide)).1⟩
